import Mathlib

/-!
# Verification of the Mermaid diagram extraction and validation engine

A shallow embedding of `src/src-tauri/src/mermaid_parser.rs`: the diagram
classifier (`detect_diagram_type`), the structural validator
(`validate_diagram` with `is_valid_diagram_declaration`,
`has_unmatched_brackets`, `has_invalid_node_id`) and the fenced-block
extractor (`parse_content`), together with theorems checking the
natural-language specification's claims against these definitions.

Modelling conventions:
* Rust `&str` values become Lean `String`s; per-line scanning works on
  `List Char` (a `String`'s `data`).
* `str::lines()` is modelled by `rustLinesL`: split on `'\n'`, strip one
  trailing `'\r'` from every segment that was terminated by a `'\n'`, and
  drop the final segment when it is empty.
* Rust `char::is_whitespace` and the regex class `\s` are the Unicode
  `White_Space` set, modelled exactly by `rustWS`.
* The regex word class `[A-Za-z0-9_]` of the captured identifier is ASCII
  in the source (`isWordChar`); the word boundary `\b` of the `regex`
  crate is Unicode-aware, modelled by `isUnicodeWordChar` over an explicit
  range table of the crate's `\w` set (see `nonAsciiWordRanges`).
* `id.len()` in the source is a byte count; for ASCII identifiers (the only
  ones the regex `[A-Za-z_][A-Za-z0-9_]*` can capture) it equals the
  character count used here.
* The per-diagram UUID (`id`) and the wall-clock `parsing_time_ms` field
  are omitted: no structural claim depends on them.
* The source stores its dialect patterns in a `HashMap` and iterates it;
  iteration order is modelled as an arbitrary permutation of
  `canonicalOrder` (see `detectWithOrder`).
-/

/-- Rust `char::is_whitespace` (the Unicode `White_Space` property), which is
also the default meaning of the regex class `\s` in the `regex` crate. -/
def rustWS (c : Char) : Bool :=
  c = ' ' || c = '\t' || c = '\n' || c = '\x0b' || c = '\x0c' || c = '\r' ||
  c.val = 0x85 || c.val = 0xA0 || c.val = 0x1680 ||
  (0x2000 ≤ c.val && c.val ≤ 0x200A) ||
  c.val = 0x2028 || c.val = 0x2029 || c.val = 0x202F || c.val = 0x205F ||
  c.val = 0x3000

/-- The regex class `[A-Za-z0-9_]`: the characters an identifier capture
may contain. -/
def isWordChar (c : Char) : Bool :=
  c.isAlpha || c.isDigit || c = '_'

/-- The non-ASCII code-point ranges of the `regex` crate's word class `\w`
(`[\p{Alphabetic}\p{M}\p{Nd}\p{Pc}\p{Join_Control}]`), which the word
boundary `\b` tests. Derived from the Unicode character database
(categories L, M, Nd, Nl and Pc, the two Join_Control characters U+200C
and U+200D, and the circled letters U+24B6..U+24E9, the only
Other_Alphabetic block outside those categories). -/
def nonAsciiWordRanges : List (Nat × Nat) :=
  [(170, 170), (181, 181), (186, 186), (192, 214), (216, 246), (248, 705),
   (710, 721), (736, 740), (748, 748), (750, 750), (768, 884), (886, 887),
   (890, 893), (895, 895), (902, 902), (904, 906), (908, 908), (910, 929),
   (931, 1013), (1015, 1153), (1155, 1327), (1329, 1366), (1369, 1369),
   (1376, 1416), (1425, 1469), (1471, 1471), (1473, 1474), (1476, 1477),
   (1479, 1479), (1488, 1514), (1519, 1522), (1552, 1562), (1568, 1641),
   (1646, 1747), (1749, 1756), (1759, 1768), (1770, 1788), (1791, 1791),
   (1808, 1866), (1869, 1969), (1984, 2037), (2042, 2042), (2045, 2045),
   (2048, 2093), (2112, 2139), (2144, 2154), (2160, 2183), (2185, 2190),
   (2200, 2273), (2275, 2403), (2406, 2415), (2417, 2435), (2437, 2444),
   (2447, 2448), (2451, 2472), (2474, 2480), (2482, 2482), (2486, 2489),
   (2492, 2500), (2503, 2504), (2507, 2510), (2519, 2519), (2524, 2525),
   (2527, 2531), (2534, 2545), (2556, 2556), (2558, 2558), (2561, 2563),
   (2565, 2570), (2575, 2576), (2579, 2600), (2602, 2608), (2610, 2611),
   (2613, 2614), (2616, 2617), (2620, 2620), (2622, 2626), (2631, 2632),
   (2635, 2637), (2641, 2641), (2649, 2652), (2654, 2654), (2662, 2677),
   (2689, 2691), (2693, 2701), (2703, 2705), (2707, 2728), (2730, 2736),
   (2738, 2739), (2741, 2745), (2748, 2757), (2759, 2761), (2763, 2765),
   (2768, 2768), (2784, 2787), (2790, 2799), (2809, 2815), (2817, 2819),
   (2821, 2828), (2831, 2832), (2835, 2856), (2858, 2864), (2866, 2867),
   (2869, 2873), (2876, 2884), (2887, 2888), (2891, 2893), (2901, 2903),
   (2908, 2909), (2911, 2915), (2918, 2927), (2929, 2929), (2946, 2947),
   (2949, 2954), (2958, 2960), (2962, 2965), (2969, 2970), (2972, 2972),
   (2974, 2975), (2979, 2980), (2984, 2986), (2990, 3001), (3006, 3010),
   (3014, 3016), (3018, 3021), (3024, 3024), (3031, 3031), (3046, 3055),
   (3072, 3084), (3086, 3088), (3090, 3112), (3114, 3129), (3132, 3140),
   (3142, 3144), (3146, 3149), (3157, 3158), (3160, 3162), (3165, 3165),
   (3168, 3171), (3174, 3183), (3200, 3203), (3205, 3212), (3214, 3216),
   (3218, 3240), (3242, 3251), (3253, 3257), (3260, 3268), (3270, 3272),
   (3274, 3277), (3285, 3286), (3293, 3294), (3296, 3299), (3302, 3311),
   (3313, 3314), (3328, 3340), (3342, 3344), (3346, 3396), (3398, 3400),
   (3402, 3406), (3412, 3415), (3423, 3427), (3430, 3439), (3450, 3455),
   (3457, 3459), (3461, 3478), (3482, 3505), (3507, 3515), (3517, 3517),
   (3520, 3526), (3530, 3530), (3535, 3540), (3542, 3542), (3544, 3551),
   (3558, 3567), (3570, 3571), (3585, 3642), (3648, 3662), (3664, 3673),
   (3713, 3714), (3716, 3716), (3718, 3722), (3724, 3747), (3749, 3749),
   (3751, 3773), (3776, 3780), (3782, 3782), (3784, 3789), (3792, 3801),
   (3804, 3807), (3840, 3840), (3864, 3865), (3872, 3881), (3893, 3893),
   (3895, 3895), (3897, 3897), (3902, 3911), (3913, 3948), (3953, 3972),
   (3974, 3991), (3993, 4028), (4038, 4038), (4096, 4169), (4176, 4253),
   (4256, 4293), (4295, 4295), (4301, 4301), (4304, 4346), (4348, 4680),
   (4682, 4685), (4688, 4694), (4696, 4696), (4698, 4701), (4704, 4744),
   (4746, 4749), (4752, 4784), (4786, 4789), (4792, 4798), (4800, 4800),
   (4802, 4805), (4808, 4822), (4824, 4880), (4882, 4885), (4888, 4954),
   (4957, 4959), (4992, 5007), (5024, 5109), (5112, 5117), (5121, 5740),
   (5743, 5759), (5761, 5786), (5792, 5866), (5870, 5880), (5888, 5909),
   (5919, 5940), (5952, 5971), (5984, 5996), (5998, 6000), (6002, 6003),
   (6016, 6099), (6103, 6103), (6108, 6109), (6112, 6121), (6155, 6157),
   (6159, 6169), (6176, 6264), (6272, 6314), (6320, 6389), (6400, 6430),
   (6432, 6443), (6448, 6459), (6470, 6509), (6512, 6516), (6528, 6571),
   (6576, 6601), (6608, 6617), (6656, 6683), (6688, 6750), (6752, 6780),
   (6783, 6793), (6800, 6809), (6823, 6823), (6832, 6862), (6912, 6988),
   (6992, 7001), (7019, 7027), (7040, 7155), (7168, 7223), (7232, 7241),
   (7245, 7293), (7296, 7304), (7312, 7354), (7357, 7359), (7376, 7378),
   (7380, 7418), (7424, 7957), (7960, 7965), (7968, 8005), (8008, 8013),
   (8016, 8023), (8025, 8025), (8027, 8027), (8029, 8029), (8031, 8061),
   (8064, 8116), (8118, 8124), (8126, 8126), (8130, 8132), (8134, 8140),
   (8144, 8147), (8150, 8155), (8160, 8172), (8178, 8180), (8182, 8188),
   (8204, 8205), (8255, 8256), (8276, 8276), (8305, 8305), (8319, 8319),
   (8336, 8348), (8400, 8432), (8450, 8450), (8455, 8455), (8458, 8467),
   (8469, 8469), (8473, 8477), (8484, 8484), (8486, 8486), (8488, 8488),
   (8490, 8493), (8495, 8505), (8508, 8511), (8517, 8521), (8526, 8526),
   (8544, 8584), (9398, 9449), (11264, 11492), (11499, 11507), (11520, 11557),
   (11559, 11559), (11565, 11565), (11568, 11623), (11631, 11631),
   (11647, 11670), (11680, 11686), (11688, 11694), (11696, 11702),
   (11704, 11710), (11712, 11718), (11720, 11726), (11728, 11734),
   (11736, 11742), (11744, 11775), (11823, 11823), (12293, 12295),
   (12321, 12335), (12337, 12341), (12344, 12348), (12353, 12438),
   (12441, 12442), (12445, 12447), (12449, 12538), (12540, 12543),
   (12549, 12591), (12593, 12686), (12704, 12735), (12784, 12799),
   (13312, 19903), (19968, 42124), (42192, 42237), (42240, 42508),
   (42512, 42539), (42560, 42610), (42612, 42621), (42623, 42737),
   (42775, 42783), (42786, 42888), (42891, 42954), (42960, 42961),
   (42963, 42963), (42965, 42969), (42994, 43047), (43052, 43052),
   (43072, 43123), (43136, 43205), (43216, 43225), (43232, 43255),
   (43259, 43259), (43261, 43309), (43312, 43347), (43360, 43388),
   (43392, 43456), (43471, 43481), (43488, 43518), (43520, 43574),
   (43584, 43597), (43600, 43609), (43616, 43638), (43642, 43714),
   (43739, 43741), (43744, 43759), (43762, 43766), (43777, 43782),
   (43785, 43790), (43793, 43798), (43808, 43814), (43816, 43822),
   (43824, 43866), (43868, 43881), (43888, 44010), (44012, 44013),
   (44016, 44025), (44032, 55203), (55216, 55238), (55243, 55291),
   (63744, 64109), (64112, 64217), (64256, 64262), (64275, 64279),
   (64285, 64296), (64298, 64310), (64312, 64316), (64318, 64318),
   (64320, 64321), (64323, 64324), (64326, 64433), (64467, 64829),
   (64848, 64911), (64914, 64967), (65008, 65019), (65024, 65039),
   (65056, 65071), (65075, 65076), (65101, 65103), (65136, 65140),
   (65142, 65276), (65296, 65305), (65313, 65338), (65343, 65343),
   (65345, 65370), (65382, 65470), (65474, 65479), (65482, 65487),
   (65490, 65495), (65498, 65500), (65536, 65547), (65549, 65574),
   (65576, 65594), (65596, 65597), (65599, 65613), (65616, 65629),
   (65664, 65786), (65856, 65908), (66045, 66045), (66176, 66204),
   (66208, 66256), (66272, 66272), (66304, 66335), (66349, 66378),
   (66384, 66426), (66432, 66461), (66464, 66499), (66504, 66511),
   (66513, 66517), (66560, 66717), (66720, 66729), (66736, 66771),
   (66776, 66811), (66816, 66855), (66864, 66915), (66928, 66938),
   (66940, 66954), (66956, 66962), (66964, 66965), (66967, 66977),
   (66979, 66993), (66995, 67001), (67003, 67004), (67072, 67382),
   (67392, 67413), (67424, 67431), (67456, 67461), (67463, 67504),
   (67506, 67514), (67584, 67589), (67592, 67592), (67594, 67637),
   (67639, 67640), (67644, 67644), (67647, 67669), (67680, 67702),
   (67712, 67742), (67808, 67826), (67828, 67829), (67840, 67861),
   (67872, 67897), (67968, 68023), (68030, 68031), (68096, 68099),
   (68101, 68102), (68108, 68115), (68117, 68119), (68121, 68149),
   (68152, 68154), (68159, 68159), (68192, 68220), (68224, 68252),
   (68288, 68295), (68297, 68326), (68352, 68405), (68416, 68437),
   (68448, 68466), (68480, 68497), (68608, 68680), (68736, 68786),
   (68800, 68850), (68864, 68903), (68912, 68921), (69248, 69289),
   (69291, 69292), (69296, 69297), (69376, 69404), (69415, 69415),
   (69424, 69456), (69488, 69509), (69552, 69572), (69600, 69622),
   (69632, 69702), (69734, 69749), (69759, 69818), (69826, 69826),
   (69840, 69864), (69872, 69881), (69888, 69940), (69942, 69951),
   (69956, 69959), (69968, 70003), (70006, 70006), (70016, 70084),
   (70089, 70092), (70094, 70106), (70108, 70108), (70144, 70161),
   (70163, 70199), (70206, 70206), (70272, 70278), (70280, 70280),
   (70282, 70285), (70287, 70301), (70303, 70312), (70320, 70378),
   (70384, 70393), (70400, 70403), (70405, 70412), (70415, 70416),
   (70419, 70440), (70442, 70448), (70450, 70451), (70453, 70457),
   (70459, 70468), (70471, 70472), (70475, 70477), (70480, 70480),
   (70487, 70487), (70493, 70499), (70502, 70508), (70512, 70516),
   (70656, 70730), (70736, 70745), (70750, 70753), (70784, 70853),
   (70855, 70855), (70864, 70873), (71040, 71093), (71096, 71104),
   (71128, 71133), (71168, 71232), (71236, 71236), (71248, 71257),
   (71296, 71352), (71360, 71369), (71424, 71450), (71453, 71467),
   (71472, 71481), (71488, 71494), (71680, 71738), (71840, 71913),
   (71935, 71942), (71945, 71945), (71948, 71955), (71957, 71958),
   (71960, 71989), (71991, 71992), (71995, 72003), (72016, 72025),
   (72096, 72103), (72106, 72151), (72154, 72161), (72163, 72164),
   (72192, 72254), (72263, 72263), (72272, 72345), (72349, 72349),
   (72368, 72440), (72704, 72712), (72714, 72758), (72760, 72768),
   (72784, 72793), (72818, 72847), (72850, 72871), (72873, 72886),
   (72960, 72966), (72968, 72969), (72971, 73014), (73018, 73018),
   (73020, 73021), (73023, 73031), (73040, 73049), (73056, 73061),
   (73063, 73064), (73066, 73102), (73104, 73105), (73107, 73112),
   (73120, 73129), (73440, 73462), (73648, 73648), (73728, 74649),
   (74752, 74862), (74880, 75075), (77712, 77808), (77824, 78894),
   (82944, 83526), (92160, 92728), (92736, 92766), (92768, 92777),
   (92784, 92862), (92864, 92873), (92880, 92909), (92912, 92916),
   (92928, 92982), (92992, 92995), (93008, 93017), (93027, 93047),
   (93053, 93071), (93760, 93823), (93952, 94026), (94031, 94087),
   (94095, 94111), (94176, 94177), (94179, 94180), (94192, 94193),
   (94208, 100343), (100352, 101589), (101632, 101640), (110576, 110579),
   (110581, 110587), (110589, 110590), (110592, 110882), (110928, 110930),
   (110948, 110951), (110960, 111355), (113664, 113770), (113776, 113788),
   (113792, 113800), (113808, 113817), (113821, 113822), (118528, 118573),
   (118576, 118598), (119141, 119145), (119149, 119154), (119163, 119170),
   (119173, 119179), (119210, 119213), (119362, 119364), (119808, 119892),
   (119894, 119964), (119966, 119967), (119970, 119970), (119973, 119974),
   (119977, 119980), (119982, 119993), (119995, 119995), (119997, 120003),
   (120005, 120069), (120071, 120074), (120077, 120084), (120086, 120092),
   (120094, 120121), (120123, 120126), (120128, 120132), (120134, 120134),
   (120138, 120144), (120146, 120485), (120488, 120512), (120514, 120538),
   (120540, 120570), (120572, 120596), (120598, 120628), (120630, 120654),
   (120656, 120686), (120688, 120712), (120714, 120744), (120746, 120770),
   (120772, 120779), (120782, 120831), (121344, 121398), (121403, 121452),
   (121461, 121461), (121476, 121476), (121499, 121503), (121505, 121519),
   (122624, 122654), (122880, 122886), (122888, 122904), (122907, 122913),
   (122915, 122916), (122918, 122922), (123136, 123180), (123184, 123197),
   (123200, 123209), (123214, 123214), (123536, 123566), (123584, 123641),
   (124896, 124902), (124904, 124907), (124909, 124910), (124912, 124926),
   (124928, 125124), (125136, 125142), (125184, 125259), (125264, 125273),
   (126464, 126467), (126469, 126495), (126497, 126498), (126500, 126500),
   (126503, 126503), (126505, 126514), (126516, 126519), (126521, 126521),
   (126523, 126523), (126530, 126530), (126535, 126535), (126537, 126537),
   (126539, 126539), (126541, 126543), (126545, 126546), (126548, 126548),
   (126551, 126551), (126553, 126553), (126555, 126555), (126557, 126557),
   (126559, 126559), (126561, 126562), (126564, 126564), (126567, 126570),
   (126572, 126578), (126580, 126583), (126585, 126588), (126590, 126590),
   (126592, 126601), (126603, 126619), (126625, 126627), (126629, 126633),
   (126635, 126651), (130032, 130041), (131072, 173791), (173824, 177976),
   (177984, 178205), (178208, 183969), (183984, 191456), (194560, 195101),
   (196608, 201546), (917760, 917999)]

/-- The full word set of `\b`: the ASCII word characters plus the
non-ASCII ranges above. The `0x80 ≤` guard keeps evaluation on ASCII
characters free of the table. -/
def isUnicodeWordChar (c : Char) : Bool :=
  isWordChar c ||
  (0x80 ≤ c.toNat &&
    nonAsciiWordRanges.any (fun r => r.1 ≤ c.toNat && c.toNat ≤ r.2))

/-- The class `[A-Za-z_]`: the first character of a captured identifier. -/
def isIdStart (c : Char) : Bool :=
  c.isAlpha || c = '_'

/-- Rust `str::trim` on a character list: drop Unicode whitespace from both
ends. -/
def rustTrimL (l : List Char) : List Char :=
  ((l.dropWhile rustWS).reverse.dropWhile rustWS).reverse

/-- Split a character list at every `'\n'` (the newline itself removed); a
trailing newline yields a final empty segment, and the empty input is the
single empty segment. -/
def splitNl : List Char → List (List Char)
  | [] => [[]]
  | c :: rest =>
    if c = '\n' then [] :: splitNl rest
    else
      match splitNl rest with
      | [] => [[c]]
      | h :: t => (c :: h) :: t

/-- Strip one trailing `'\r'` (only applied to segments that were terminated
by a `'\n'`, as Rust's `str::lines` does). -/
def stripCRL (l : List Char) : List Char :=
  if l.getLast? = some '\r' then l.dropLast else l

/-- The tail of Rust's `lines()`: every segment except the final one was
terminated by `'\n'` and has one trailing `'\r'` stripped; a final empty
segment is dropped, a final non-empty one is kept verbatim. -/
def rustLinesGo : List (List Char) → List (List Char)
  | [] => []
  | [last] => if last = [] then [] else [last]
  | p :: rest => stripCRL p :: rustLinesGo rest

/-- Rust `str::lines()` on a character list. -/
def rustLinesL (cs : List Char) : List (List Char) :=
  rustLinesGo (splitNl cs)

/-- Join collected block lines with `'\n'`, as `Vec::join("\n")` does. -/
def joinLines : List (List Char) → List Char
  | [] => []
  | [l] => l
  | l :: rest => l ++ '\n' :: joinLines rest

/-- `needle.isPrefixOf hay`, but (hay, needle) argument order of Rust's
`hay.contains(needle)`: does `n` occur as a contiguous substring of `h`? -/
def listContains (h n : List Char) : Bool :=
  n.isPrefixOf h ||
    match h with
    | [] => false
    | _ :: t => listContains t n

/-- ASCII lowercasing, the model of Rust `str::to_lowercase` (which is
Unicode; the dialect keywords searched for are all ASCII). -/
def toLowerL (l : List Char) : List Char :=
  l.map Char.toLower

/-- One diagnostic of the validator (`SyntaxError` in the source): a
1-indexed line, a column (always 1 here), a message and a severity string
(`"error"`, `"warning"` or `"info"`). -/
structure SyntaxError where
  line : Nat
  column : Nat
  message : String
  severity : String
deriving Repr, DecidableEq

/-- The result of `validate_diagram`. -/
structure ValidationResult where
  is_valid : Bool
  errors : List SyntaxError
deriving Repr, DecidableEq

/-- One extracted fenced block (`ParsedDiagram` in the source; the UUID
field is omitted, see the header). -/
structure ParsedDiagram where
  diagram_type : String
  content : String
  start_line : Nat
  end_line : Nat
  has_error : Bool
  error_message : Option String
deriving Repr, DecidableEq

/-- The result of `parse_content` (the wall-clock `parsing_time_ms` field is
omitted, see the header). -/
structure ParseResult where
  diagrams : List ParsedDiagram
  total_errors : Nat
deriving Repr, DecidableEq

/-! ## The classifier -/

/-- `kw.data` is a prefix of `s`: the anchored keyword test shared by all
dialect signature regexes `^\s*keyword…` (applied after the `\s*` part). -/
def kwTest (kw : String) (s : List Char) : Bool :=
  kw.data.isPrefixOf s

/-- The direction alternation `(?:TD|TB|BT|RL|LR|TOP|BOTTOM|LEFT|RIGHT)` of
the flowchart signature, as a prefix test. -/
def dirStart (s : List Char) : Bool :=
  ["TD", "TB", "BT", "RL", "LR", "TOP", "BOTTOM", "LEFT", "RIGHT"].any
    (fun d => kwTest d s)

/-- `\s+(?:TD|…)` after the flowchart keyword: at least one whitespace
character, then a direction token. -/
def dirAfter (r : List Char) : Bool :=
  match r.head? with
  | some c => rustWS c && dirStart (r.dropWhile rustWS)
  | none => false

/-- The flowchart signature
`^\s*(?:graph|flowchart)\s+(?:TD|TB|BT|RL|LR|TOP|BOTTOM|LEFT|RIGHT)`,
applied after the leading `\s*` has been dropped. -/
def flowMatch (s : List Char) : Bool :=
  (kwTest "graph" s && dirAfter (s.drop 5)) ||
  (kwTest "flowchart" s && dirAfter (s.drop 9))

/-- `diagram_type_patterns`: whether the signature regex of dialect `d`
matches `line` (`Regex::is_match` with the `^\s*` anchor). Optional suffixes
of the signatures (`(?:-v2)?`, `(?:\s+title)?`) do not affect `is_match` and
are absorbed by the plain keyword test. -/
def strictMatch (d : String) (line : List Char) : Bool :=
  let s := line.dropWhile rustWS
  if d = "flowchart" then flowMatch s
  else if d = "sequence" then kwTest "sequenceDiagram" s
  else if d = "class" then kwTest "classDiagram" s
  else if d = "state" then kwTest "stateDiagram" s
  else if d = "er" then kwTest "erDiagram" s
  else if d = "gantt" then kwTest "gantt" s
  else if d = "pie" then kwTest "pie" s
  else if d = "journey" then kwTest "journey" s
  else if d = "gitgraph" then kwTest "gitgraph" s
  else if d = "requirement" then kwTest "requirementDiagram" s
  else if d = "c4context" then kwTest "C4Context" s
  else if d = "mindmap" then kwTest "mindmap" s
  else if d = "timeline" then kwTest "timeline" s
  else false

/-- The thirteen dialects of `diagram_type_patterns`, in the source's
insertion order. The source iterates the `HashMap` in an unspecified
order; quantify over permutations of this list to model that. -/
def canonicalOrder : List String :=
  ["flowchart", "sequence", "class", "state", "er", "gantt", "pie",
   "journey", "gitgraph", "requirement", "c4context", "mindmap", "timeline"]

/-- The fallback of `detect_diagram_type`: case-insensitive substring
search on the (already lowercased) first line. -/
def fallbackDetect (lower : List Char) : String :=
  if listContains lower "graph".data || listContains lower "flowchart".data then
    "flowchart"
  else if listContains lower "sequencediagram".data then "sequence"
  else if listContains lower "classdiagram".data then "class"
  else if listContains lower "statediagram".data then "state"
  else if listContains lower "erdiagram".data then "er"
  else if listContains lower "gantt".data then "gantt"
  else if listContains lower "pie".data then "pie"
  else "unknown"

/-- The body of `detect_diagram_type` on the trimmed first line, with the
`HashMap` iteration order passed explicitly: the first dialect in `order`
whose signature matches wins, otherwise the fallback runs. -/
def detectCoreWithOrder (order : List String) (t : List Char) : String :=
  match order.find? (fun d => strictMatch d t) with
  | some d => d
  | none => fallbackDetect (toLowerL t)

/-- `content.lines().next().unwrap_or("")`. -/
def firstLineChars (content : String) : List Char :=
  (rustLinesL content.data).head?.getD []

/-- `detect_diagram_type` under an arbitrary `HashMap` iteration order. -/
def detectWithOrder (order : List String) (content : String) : String :=
  detectCoreWithOrder order (rustTrimL (firstLineChars content))

/-- `MermaidParser::detect_diagram_type`, with the canonical (insertion)
order standing for the `HashMap` iteration order; `detect_order_irrelevant`
shows the choice does not matter. -/
def detect_diagram_type (content : String) : String :=
  detectWithOrder canonicalOrder content

/-! ## The validator -/

/-- `MermaidParser::is_valid_diagram_declaration`: some dialect signature
matches (the `HashMap` `values()` iteration is an order-irrelevant
disjunction), or the lowercased line starts with one of ten
keywords. -/
def is_valid_diagram_declaration (line : List Char) : Bool :=
  canonicalOrder.any (fun d => strictMatch d line) ||
  (let lower := toLowerL line
   kwTest "graph" lower || kwTest "flowchart" lower ||
   kwTest "sequencediagram" lower || kwTest "classdiagram" lower ||
   kwTest "statediagram" lower || kwTest "erdiagram" lower ||
   kwTest "gantt" lower || kwTest "pie" lower ||
   kwTest "journey" lower || kwTest "gitgraph" lower)

/-- The shared-stack scan of `MermaidParser::has_unmatched_brackets`: on an
opener push the expected closer, on a closer pop and compare (an empty
stack or a mismatch fails immediately). -/
def bracketScan : List Char → List Char → Bool
  | [], stack => !stack.isEmpty
  | c :: rest, stack =>
    if c = '(' then bracketScan rest (')' :: stack)
    else if c = '[' then bracketScan rest (']' :: stack)
    else if c = '\x7b' then bracketScan rest ('\x7d' :: stack)
    else if c = ')' || c = ']' || c = '\x7d' then
      match stack with
      | top :: stack' => if top = c then bracketScan rest stack' else true
      | [] => true
    else bracketScan rest stack

/-- `MermaidParser::has_unmatched_brackets` on one line. -/
def has_unmatched_brackets (line : List Char) : Bool :=
  bracketScan line []

/-- `id.contains("--")` of the source (always false on a captured
identifier, whose characters are all word characters). -/
def hasDashDash : List Char → Bool
  | a :: b :: rest => (a = '-' && b = '-') || hasDashDash (b :: rest)
  | _ => false

/-- The reserved-pattern test applied to each captured identifier:
`id.len() > 50 || id.contains("--") || id.starts_with("__")`. -/
def badId (run : List Char) : Bool :=
  run.length > 50 || hasDashDash run || "__".data.isPrefixOf run

/-- `\s*[\[\(]` after the captured identifier: skip whitespace, require a
`'['` or `'('`. -/
def followedByBracket (rest : List Char) : Bool :=
  match (rest.dropWhile rustWS).head? with
  | some c => c = '[' || c = '('
  | none => false

/-- The match semantics of `captures_iter` with the source's node-id regex
`\b([A-Za-z_][A-Za-z0-9_]*)\s*[\[\(]`: every candidate identifier is a
maximal run of word characters starting at a word boundary whose first
character is in `[A-Za-z_]` (the character classes are pairwise disjoint,
so the greedy stars never backtrack and matches are exactly these runs);
the scan reports whether any such run that is followed by `\s*` and a
bracket satisfies `badId`. `prevWord` records whether the previous
character belongs to `\b`'s Unicode word set (then the current position
is not a word boundary); a capture can only extend over the ASCII class
`isWordChar`, while the boundary test is Unicode-aware. -/
def scanGo : List Char → Bool → Bool
  | [], _ => false
  | c :: cs, prevWord =>
    if isWordChar c then
      if prevWord then scanGo cs true
      else
        (isIdStart c && followedByBracket (cs.dropWhile isWordChar) &&
          badId (c :: cs.takeWhile isWordChar)) ||
        scanGo cs true
    else scanGo cs (isUnicodeWordChar c)

/-- `MermaidParser::has_invalid_node_id` on one line: scan from the start,
which is a word boundary (`prevWord = false`). -/
def has_invalid_node_id (line : List Char) : Bool :=
  scanGo line false

/-- The per-line loop of `validate_diagram`, carrying the absolute
(1-indexed) line number `n = start_line + line_idx`: the bracket check is
pushed before the node-id check for every line. -/
def lineDiags (n : Nat) : List (List Char) → List SyntaxError
  | [] => []
  | l :: rest =>
    (if has_unmatched_brackets l then
      [⟨n, 1, "Unmatched brackets detected", "warning"⟩] else []) ++
    (if has_invalid_node_id l then
      [⟨n, 1, "Invalid characters in node ID", "warning"⟩] else []) ++
    lineDiags (n + 1) rest

/-- `MermaidParser::validate_diagram`. -/
def validate_diagram (content : String) (start_line : Nat) : ValidationResult :=
  if rustTrimL content.data = [] then
    ⟨false, [⟨start_line, 1, "Empty diagram content", "error"⟩]⟩
  else
    let lines := rustLinesL content.data
    let declErrs : List SyntaxError :=
      match lines.head? with
      | none => []
      | some fl =>
        let t := rustTrimL fl
        if is_valid_diagram_declaration t then []
        else
          [⟨start_line, 1,
            "Invalid diagram declaration: '" ++ String.mk t ++ "'", "error"⟩]
    let allErrs := declErrs ++ lineDiags start_line lines
    ⟨allErrs.all (fun e => decide (e.severity ≠ "error")), allErrs⟩

/-! ## The extractor -/

/-- Is the trimmed line an opening fence
(`starts_with("```mermaid") || starts_with("```mmd")`)? -/
def openerLine (l : List Char) : Bool :=
  "```mermaid".data.isPrefixOf (rustTrimL l) ||
  "```mmd".data.isPrefixOf (rustTrimL l)

/-- Is the trimmed line exactly the closing fence
(`trimmed == "```"`)? -/
def closerLine (l : List Char) : Bool :=
  rustTrimL l = "```".data

/-- The mutable locals of `parse_content`'s loop. -/
structure PState where
  diagrams : List ParsedDiagram
  total : Nat
  inBlock : Bool
  cur : List (List Char)
  start : Nat
deriving Repr, DecidableEq

/-- Build the `ParsedDiagram` for a finished block together with its
contribution to `total_errors` (the source adds the full diagnostic count,
warnings included, whenever the validation is invalid). -/
def mkDiagram (cur : List (List Char)) (startLine endLine : Nat) :
    ParsedDiagram × Nat :=
  let content : String := ⟨joinLines cur⟩
  let v := validate_diagram content startLine
  (⟨detect_diagram_type content, content, startLine, endLine,
      !v.is_valid, v.errors.head?.map (fun e => e.message)⟩,
   if v.is_valid then 0 else v.errors.length)

/-- Finish the current block at (0-indexed closing position, i.e. 1-indexed
last content line) `endLine`: push a record only when content lines were
collected, and reset the block state either way. -/
def pushBlock (st : PState) (endLine : Nat) : PState :=
  if st.cur = [] then { st with inBlock := false, cur := [] }
  else
    let p := mkDiagram st.cur st.start endLine
    { st with diagrams := st.diagrams ++ [p.1], total := st.total + p.2,
              inBlock := false, cur := [] }

/-- The line loop of `parse_content`; `idx` is the 0-based index of the
next line. An opener (checked first, even inside a block) restarts the
block with `start_line = idx + 2`; a closer inside a block finishes it with
`end_line = idx`; other lines are collected verbatim while inside a
block. -/
def processLines : List (List Char) → Nat → PState → PState
  | [], _, st => st
  | l :: rest, idx, st =>
    if openerLine l then
      processLines rest (idx + 1)
        { st with inBlock := true, start := idx + 2, cur := [] }
    else if st.inBlock && closerLine l then
      processLines rest (idx + 1) (pushBlock st idx)
    else if st.inBlock then
      processLines rest (idx + 1) { st with cur := st.cur ++ [l] }
    else
      processLines rest (idx + 1) st

/-- `parse_content` on an already-split line list: run the loop, then
finish an unclosed block (if any) with `end_line` = the total line
count. -/
def parse_lines (ls : List (List Char)) : ParseResult :=
  let st := processLines ls 0 ⟨[], 0, false, [], 0⟩
  let st := if st.inBlock then pushBlock st ls.length else st
  ⟨st.diagrams, st.total⟩

/-- `MermaidParser::parse_content`. -/
def parse_content (content : String) : ParseResult :=
  parse_lines (rustLinesL content.data)

/-! ## Dialect signatures: keyword extraction and mutual exclusivity -/

/-- Each dialect paired with the literal keyword(s) its signature anchors
on (the flowchart signature accepts two). -/
def kwTable : List (String × String) :=
  [("flowchart", "graph"), ("flowchart", "flowchart"),
   ("sequence", "sequenceDiagram"), ("class", "classDiagram"),
   ("state", "stateDiagram"), ("er", "erDiagram"), ("gantt", "gantt"),
   ("pie", "pie"), ("journey", "journey"), ("gitgraph", "gitgraph"),
   ("requirement", "requirementDiagram"), ("c4context", "C4Context"),
   ("mindmap", "mindmap"), ("timeline", "timeline")]

/-- No signature keyword is a prefix of another dialect's keyword. -/
theorem kwTable_excl : ∀ p ∈ kwTable, ∀ q ∈ kwTable,
    p.2.data.isPrefixOf q.2.data = true → p.1 = q.1 := by decide

/-- A matching signature forces its keyword to be a prefix of the line
after leading whitespace. -/
theorem strictMatch_kw {d : String} (hd : d ∈ canonicalOrder) {t : List Char}
    (h : strictMatch d t = true) :
    ∃ kw, (d, kw) ∈ kwTable ∧ kw.data <+: t.dropWhile rustWS := by
  have hiff : ∀ (kw : String) (s : List Char), kwTest kw s = true ↔ kw.data <+: s := by
    intro kw s; exact List.isPrefixOf_iff_prefix
  simp only [canonicalOrder, List.mem_cons, List.not_mem_nil, or_false] at hd
  rcases hd with rfl | rfl | rfl | rfl | rfl | rfl | rfl | rfl | rfl | rfl | rfl | rfl | rfl <;>
    simp only [strictMatch, flowMatch, if_true, if_false, reduceIte, Bool.or_eq_true,
      Bool.and_eq_true] at h
  · rcases h with ⟨hg, _⟩ | ⟨hf, _⟩
    · exact ⟨"graph", by simp [kwTable], (hiff _ _).mp hg⟩
    · exact ⟨"flowchart", by simp [kwTable], (hiff _ _).mp hf⟩
  · exact ⟨"sequenceDiagram", by simp [kwTable], (hiff _ _).mp h⟩
  · exact ⟨"classDiagram", by simp [kwTable], (hiff _ _).mp h⟩
  · exact ⟨"stateDiagram", by simp [kwTable], (hiff _ _).mp h⟩
  · exact ⟨"erDiagram", by simp [kwTable], (hiff _ _).mp h⟩
  · exact ⟨"gantt", by simp [kwTable], (hiff _ _).mp h⟩
  · exact ⟨"pie", by simp [kwTable], (hiff _ _).mp h⟩
  · exact ⟨"journey", by simp [kwTable], (hiff _ _).mp h⟩
  · exact ⟨"gitgraph", by simp [kwTable], (hiff _ _).mp h⟩
  · exact ⟨"requirementDiagram", by simp [kwTable], (hiff _ _).mp h⟩
  · exact ⟨"C4Context", by simp [kwTable], (hiff _ _).mp h⟩
  · exact ⟨"mindmap", by simp [kwTable], (hiff _ _).mp h⟩
  · exact ⟨"timeline", by simp [kwTable], (hiff _ _).mp h⟩

/-- At most one dialect signature matches any given line: the keywords are
pairwise non-prefix across dialects, so first-match-wins is
order-independent. -/
theorem strictMatch_unique {t : List Char} {d₁ d₂ : String}
    (h₁ : d₁ ∈ canonicalOrder) (h₂ : d₂ ∈ canonicalOrder)
    (m₁ : strictMatch d₁ t = true) (m₂ : strictMatch d₂ t = true) :
    d₁ = d₂ := by
  obtain ⟨k₁, hk₁, hp₁⟩ := strictMatch_kw h₁ m₁
  obtain ⟨k₂, hk₂, hp₂⟩ := strictMatch_kw h₂ m₂
  have hcomp := List.prefix_or_prefix_of_prefix hp₁ hp₂
  rcases hcomp with h | h
  · exact kwTable_excl (d₁, k₁) hk₁ (d₂, k₂) hk₂ (List.isPrefixOf_iff_prefix.mpr h)
  · exact (kwTable_excl (d₂, k₂) hk₂ (d₁, k₁) hk₁ (List.isPrefixOf_iff_prefix.mpr h)).symm

/-! ## `find?` under a unique satisfier -/

/-- `find?` returns the unique satisfying element wherever it sits. -/
theorem find?_eq_some_of_unique {α : Type} (p : α → Bool) :
    ∀ (l : List α) (x : α), x ∈ l → p x = true →
      (∀ y ∈ l, p y = true → y = x) → l.find? p = some x := by
  intro l
  induction l with
  | nil => intro x hx _ _; simp at hx
  | cons a t ih =>
    intro x hx hpx huniq
    by_cases hpa : p a = true
    · have hax : a = x := huniq a (List.mem_cons_self a t) hpa
      rw [List.find?_cons_of_pos _ hpa, hax]
    · have hxt : x ∈ t := by
        rcases List.mem_cons.mp hx with h | h
        · exact absurd (h ▸ hpx) hpa
        · exact h
      rw [List.find?_cons_of_neg _ (by simp [hpa])]
      exact ih x hxt hpx (fun y hy hpy => huniq y (List.mem_cons_of_mem _ hy) hpy)

/-- When at most one element satisfies `p`, `find?` is invariant under
permutation of the list. -/
theorem find?_perm_unique {α : Type} (p : α → Bool) {l₁ l₂ : List α}
    (hperm : l₁.Perm l₂)
    (huniq : ∀ x ∈ l₁, ∀ y ∈ l₁, p x = true → p y = true → x = y) :
    l₁.find? p = l₂.find? p := by
  by_cases hex : ∃ x ∈ l₁, p x = true
  · obtain ⟨x, hx, hpx⟩ := hex
    rw [find?_eq_some_of_unique p l₁ x hx hpx
        (fun y hy hpy => huniq y hy x hx hpy hpx),
      find?_eq_some_of_unique p l₂ x (hperm.mem_iff.mp hx) hpx
        (fun y hy hpy => huniq y (hperm.mem_iff.mpr hy) x hx hpy hpx)]
  · push_neg at hex
    rw [List.find?_eq_none.mpr (fun x hx => by simp [hex x hx]),
      List.find?_eq_none.mpr (fun x hx => by simp [hex x (hperm.mem_iff.mpr hx)])]

/-- C2. Classification is deterministic and reproducible: although the
source iterates a `HashMap` of signatures, the dialect signatures are
mutually exclusive, so first-match-wins gives the same dialect under every
iteration order (hence the same result in every call and every process);
`detect_diagram_type` (the canonical order) is that common value. -/
theorem detect_order_irrelevant (order : List String)
    (hperm : order.Perm canonicalOrder) (content : String) :
    detectWithOrder order content = detect_diagram_type content := by
  unfold detect_diagram_type detectWithOrder detectCoreWithOrder
  rw [find?_perm_unique _ hperm
    (fun x hx y hy hpx hpy =>
      strictMatch_unique (hperm.mem_iff.mp hx) (hperm.mem_iff.mp hy) hpx hpy)]

/-- Witness for C2 at a concrete reversed iteration order and input. -/
theorem detect_order_irrelevant_witness :
    detectWithOrder canonicalOrder.reverse "pie" = detect_diagram_type "pie" :=
  detect_order_irrelevant canonicalOrder.reverse
    (List.reverse_perm canonicalOrder) "pie"

/-- C5. Classification looks only at the trimmed first line; a matching
strict signature decides the dialect; otherwise the case-insensitive
substring fallback maps graph/flowchart, sequencediagram, classdiagram,
statediagram, erdiagram, gantt and pie, and everything else is
"unknown" — with the three concrete examples of the spec. -/
theorem detect_first_line_cascade :
    (∀ c₁ c₂ : String,
        rustTrimL (firstLineChars c₁) = rustTrimL (firstLineChars c₂) →
        detect_diagram_type c₁ = detect_diagram_type c₂) ∧
    (∀ (c : String) (d : String), d ∈ canonicalOrder →
        strictMatch d (rustTrimL (firstLineChars c)) = true →
        detect_diagram_type c = d) ∧
    (∀ c : String,
        (∀ d ∈ canonicalOrder,
          strictMatch d (rustTrimL (firstLineChars c)) = false) →
        detect_diagram_type c =
          (let lower := toLowerL (rustTrimL (firstLineChars c))
           if listContains lower "graph".data ||
              listContains lower "flowchart".data then "flowchart"
           else if listContains lower "sequencediagram".data then "sequence"
           else if listContains lower "classdiagram".data then "class"
           else if listContains lower "statediagram".data then "state"
           else if listContains lower "erdiagram".data then "er"
           else if listContains lower "gantt".data then "gantt"
           else if listContains lower "pie".data then "pie"
           else "unknown")) ∧
    detect_diagram_type "sequenceDiagram" = "sequence" ∧
    detect_diagram_type "stateDiagram-v2" = "state" ∧
    detect_diagram_type "totally unknown text" = "unknown" := by
  refine ⟨?_, ?_, ?_, by decide, by decide, by decide⟩
  · intro c₁ c₂ h
    unfold detect_diagram_type detectWithOrder
    rw [h]
  · intro c d hd hm
    unfold detect_diagram_type detectWithOrder detectCoreWithOrder
    rw [find?_eq_some_of_unique _ canonicalOrder d hd hm
      (fun y hy hpy => strictMatch_unique hy hd hpy hm)]
  · intro c hnone
    unfold detect_diagram_type detectWithOrder detectCoreWithOrder
    rw [List.find?_eq_none.mpr (fun d hd => by simp [hnone d hd])]
    rfl

/-- Witness for C5: the strict-signature clause applied at
`"sequenceDiagram"`. -/
theorem detect_first_line_cascade_witness :
    ("sequence" ∈ canonicalOrder ∧
      strictMatch "sequence" (rustTrimL (firstLineChars "sequenceDiagram")) = true) ∧
    detect_diagram_type "sequenceDiagram" = "sequence" :=
  ⟨⟨by decide, by decide⟩,
    detect_first_line_cascade.2.1 "sequenceDiagram" "sequence"
      (by decide) (by decide)⟩

/-- C7. Validating trim-empty block text returns invalid with exactly the
single "Empty diagram content" error diagnostic at (start_line, 1), and no
other check runs. -/
theorem empty_content_single_error (content : String) (s : Nat)
    (h : rustTrimL content.data = []) :
    validate_diagram content s =
      ⟨false, [⟨s, 1, "Empty diagram content", "error"⟩]⟩ := by
  unfold validate_diagram
  rw [if_pos h]

/-- Witness for C7 at the empty string, start line 1. -/
theorem empty_content_single_error_witness :
    rustTrimL "".data = [] ∧
    validate_diagram "" 1 =
      ⟨false, [⟨1, 1, "Empty diagram content", "error"⟩]⟩ :=
  ⟨by decide, empty_content_single_error "" 1 (by decide)⟩

/-! ## Parse-loop invariants: `total_errors` and the record fields -/

/-- What `parse_content` adds to `total_errors` for one pushed record: the
full diagnostic count (warnings included) when the record's validation is
invalid, and nothing when it is valid. -/
def diagramCost (d : ParsedDiagram) : Nat :=
  if (validate_diagram d.content d.start_line).is_valid then 0
  else (validate_diagram d.content d.start_line).errors.length

/-- The number of error-severity diagnostics of a record's validation
(what the spec claims `total_errors` sums). -/
def errorSeverityCount (d : ParsedDiagram) : Nat :=
  ((validate_diagram d.content d.start_line).errors.filter
    (fun e => e.severity == "error")).length

/-- The derived fields of a pushed record, recomputable from its content
and start line. -/
def WFDiagram (d : ParsedDiagram) : Prop :=
  d.has_error = !(validate_diagram d.content d.start_line).is_valid ∧
  d.error_message =
    ((validate_diagram d.content d.start_line).errors.head?.map
      (fun e => e.message)) ∧
  d.diagram_type = detect_diagram_type d.content

theorem mkDiagram_wf (cur : List (List Char)) (s e : Nat) :
    WFDiagram (mkDiagram cur s e).1 ∧
    (mkDiagram cur s e).2 = diagramCost (mkDiagram cur s e).1 := by
  simp [mkDiagram, WFDiagram, diagramCost]

/-- The loop invariant: every pushed record is well formed and the running
total is the sum of the pushed records' costs. -/
def StInv (st : PState) : Prop :=
  (∀ d ∈ st.diagrams, WFDiagram d) ∧
  st.total = (st.diagrams.map diagramCost).sum

theorem pushBlock_inv {st : PState} (h : StInv st) (endLine : Nat) :
    StInv (pushBlock st endLine) := by
  unfold pushBlock
  by_cases hc : st.cur = []
  · rw [if_pos hc]; exact h
  · rw [if_neg hc]
    refine ⟨?_, ?_⟩
    · intro d hd
      rcases List.mem_append.mp hd with h1 | h2
      · exact h.1 d h1
      · have hde : d = (mkDiagram st.cur st.start endLine).1 := by
          simpa using h2
        rw [hde]; exact (mkDiagram_wf _ _ _).1
    · simp only [List.map_append, List.sum_append, List.map_cons,
        List.map_nil, List.sum_cons, List.sum_nil]
      rw [h.2, (mkDiagram_wf st.cur st.start endLine).2]
      omega

theorem processLines_inv :
    ∀ (ls : List (List Char)) (idx : Nat) (st : PState), StInv st →
      StInv (processLines ls idx st) := by
  intro ls
  induction ls with
  | nil => intro idx st h; exact h
  | cons l rest ih =>
    intro idx st h
    cases ho : openerLine l with
    | true =>
      simp only [processLines, ho, if_true]
      exact ih _ _ h
    | false =>
      cases hb : st.inBlock with
      | false =>
        simp [processLines, ho, hb]
        exact ih _ _ h
      | true =>
        cases hc : closerLine l with
        | true =>
          simp [processLines, ho, hb, hc]
          exact ih _ _ (pushBlock_inv h idx)
        | false =>
          simp [processLines, ho, hb, hc]
          exact ih _ _ h

theorem parse_lines_inv (ls : List (List Char)) :
    (∀ d ∈ (parse_lines ls).diagrams, WFDiagram d) ∧
    (parse_lines ls).total_errors =
      ((parse_lines ls).diagrams.map diagramCost).sum := by
  unfold parse_lines
  have h0 : StInv ⟨[], 0, false, [], 0⟩ := ⟨by simp, by simp⟩
  have h1 := processLines_inv ls 0 _ h0
  by_cases hb : (processLines ls 0 ⟨[], 0, false, [], 0⟩).inBlock = true
  · simp only [hb, if_true]
    exact pushBlock_inv h1 ls.length
  · simp only [hb, if_false, Bool.false_eq_true]
    exact h1

/-- C1 (counterexample). On the input whose single block is `foo[`, the
validation yields one error-severity and one warning-severity diagnostic;
the source adds the full diagnostic count of an invalid diagram to
`total_errors` (here 2), not the error-severity count (here 1). -/
theorem total_errors_not_error_severity_sum :
    (parse_content "```mermaid\nfoo[\n```").total_errors ≠
      ((parse_content "```mermaid\nfoo[\n```").diagrams.map
        errorSeverityCount).sum := by decide

/-- C1 (amended). `total_errors` equals the sum, over the extracted
records, of the full diagnostic count (errors and warnings alike) of each
record whose validation is invalid; records with a valid validation
contribute nothing. -/
theorem total_errors_counts_all_diagnostics_of_invalid (content : String) :
    (parse_content content).total_errors =
      ((parse_content content).diagrams.map
        (fun d =>
          if (validate_diagram d.content d.start_line).is_valid then 0
          else (validate_diagram d.content d.start_line).errors.length)).sum :=
  (parse_lines_inv (rustLinesL content.data)).2

/-- The validity bit of `validate_diagram` is the absence of
error-severity diagnostics. -/
theorem validate_is_valid_iff (content : String) (s : Nat) :
    (validate_diagram content s).is_valid = true ↔
      ∀ e ∈ (validate_diagram content s).errors, e.severity ≠ "error" := by
  unfold validate_diagram
  by_cases h : rustTrimL content.data = []
  · rw [if_pos h]
    simp
  · rw [if_neg h]
    simp only [List.all_eq_true, decide_eq_true_eq]

/-- C8. A validation result is valid iff none of its diagnostics has
severity "error" (warnings and infos never affect validity), and every
extracted record's `has_error` field is true iff validating its content
produced at least one error-severity diagnostic. -/
theorem validity_iff_no_error_severity :
    (∀ (content : String) (s : Nat),
        ((validate_diagram content s).is_valid = true ↔
          ∀ e ∈ (validate_diagram content s).errors, e.severity ≠ "error")) ∧
    (∀ content : String, ∀ d ∈ (parse_content content).diagrams,
        (d.has_error = true ↔
          ∃ e ∈ (validate_diagram d.content d.start_line).errors,
            e.severity = "error")) := by
  refine ⟨validate_is_valid_iff, ?_⟩
  intro content d hd
  have hwf := (parse_lines_inv (rustLinesL content.data)).1 d hd
  rw [hwf.1, Bool.not_eq_true']
  rw [← Bool.not_eq_true, validate_is_valid_iff d.content d.start_line]
  push_neg
  simp only [ne_eq, not_not]

/-- Witness for C8's record clause at a concrete single-flowchart input. -/
theorem validity_iff_no_error_severity_witness :
    ((⟨"flowchart", "graph TD", 2, 2, false, none⟩ : ParsedDiagram) ∈
      (parse_content "```mermaid\ngraph TD\n```").diagrams) ∧
    ((⟨"flowchart", "graph TD", 2, 2, false, none⟩ : ParsedDiagram).has_error
        = true ↔
      ∃ e ∈ (validate_diagram "graph TD" 2).errors, e.severity = "error") :=
  ⟨by decide,
    validity_iff_no_error_severity.2 "```mermaid\ngraph TD\n```"
      ⟨"flowchart", "graph TD", 2, 2, false, none⟩ (by decide)⟩

/-! ## The per-line diagnostics list: positions, membership, order -/

theorem mem_if_singleton {p : Prop} [Decidable p] {a e : SyntaxError} :
    (e ∈ (if p then [a] else [])) ↔ p ∧ e = a := by
  by_cases h : p <;> simp [h]

/-- Membership in the per-line diagnostics list, characterized by line
index and check. -/
theorem mem_lineDiags_iff (ls : List (List Char)) :
    ∀ (n : Nat) (e : SyntaxError),
      e ∈ lineDiags n ls ↔
        ∃ i l, ls[i]? = some l ∧
          ((e = ⟨n + i, 1, "Unmatched brackets detected", "warning"⟩ ∧
              has_unmatched_brackets l = true) ∨
           (e = ⟨n + i, 1, "Invalid characters in node ID", "warning"⟩ ∧
              has_invalid_node_id l = true)) := by
  induction ls with
  | nil => intro n e; simp [lineDiags]
  | cons x rest ih =>
    intro n e
    constructor
    · intro hmem
      simp only [lineDiags, List.mem_append] at hmem
      rcases hmem with (hA | hB) | hC
      · rw [mem_if_singleton] at hA
        exact ⟨0, x, by simp, Or.inl ⟨by rw [hA.2]; simp, hA.1⟩⟩
      · rw [mem_if_singleton] at hB
        exact ⟨0, x, by simp, Or.inr ⟨by rw [hB.2]; simp, hB.1⟩⟩
      · rcases (ih (n + 1) e).mp hC with ⟨i, l, hget, hor⟩
        refine ⟨i + 1, l, by simpa using hget, ?_⟩
        have harith : n + 1 + i = n + (i + 1) := by omega
        rw [harith] at hor
        exact hor
    · rintro ⟨i, l, hget, hor⟩
      simp only [lineDiags, List.mem_append]
      cases i with
      | zero =>
        simp only [List.getElem?_cons_zero, Option.some.injEq] at hget
        subst hget
        rcases hor with ⟨he, hb⟩ | ⟨he, hn⟩
        · left; left
          rw [mem_if_singleton]
          exact ⟨hb, by rw [he]; simp⟩
        · left; right
          rw [mem_if_singleton]
          exact ⟨hn, by rw [he]; simp⟩
      | succ j =>
        simp only [List.getElem?_cons_succ] at hget
        right
        rw [ih (n + 1) e]
        refine ⟨j, l, hget, ?_⟩
        have harith : n + (j + 1) = n + 1 + j := by omega
        rw [harith] at hor
        exact hor

theorem mem_lineDiags_bracket (ls : List (List Char)) (n i : Nat)
    (l : List Char) (hget : ls[i]? = some l) :
    ((⟨n + i, 1, "Unmatched brackets detected", "warning"⟩ : SyntaxError) ∈
        lineDiags n ls ↔ has_unmatched_brackets l = true) := by
  rw [mem_lineDiags_iff]
  constructor
  · rintro ⟨j, l', hget', ⟨heq, hb⟩ | ⟨heq, _⟩⟩
    · have hline : n + i = n + j := congrArg SyntaxError.line heq
      have hij : i = j := by omega
      subst hij
      rw [hget] at hget'
      cases hget'
      exact hb
    · have hmsg := congrArg SyntaxError.message heq
      simp at hmsg
  · intro hb
    exact ⟨i, l, hget, Or.inl ⟨rfl, hb⟩⟩

theorem mem_lineDiags_node (ls : List (List Char)) (n i : Nat)
    (l : List Char) (hget : ls[i]? = some l) :
    ((⟨n + i, 1, "Invalid characters in node ID", "warning"⟩ : SyntaxError) ∈
        lineDiags n ls ↔ has_invalid_node_id l = true) := by
  rw [mem_lineDiags_iff]
  constructor
  · rintro ⟨j, l', hget', ⟨heq, _⟩ | ⟨heq, hn⟩⟩
    · have hmsg := congrArg SyntaxError.message heq
      simp at hmsg
    · have hline : n + i = n + j := congrArg SyntaxError.line heq
      have hij : i = j := by omega
      subst hij
      rw [hget] at hget'
      cases hget'
      exact hn
  · intro hn
    exact ⟨i, l, hget, Or.inr ⟨rfl, hn⟩⟩

/-- A warning-severity diagnostic of a non-trim-empty validation comes from
the per-line loop: the declaration check only produces "error" severity. -/
theorem mem_validate_iff_lineDiags (content : String) (s : Nat)
    (hne : ¬ rustTrimL content.data = []) (e : SyntaxError)
    (hsev : e.severity = "warning") :
    e ∈ (validate_diagram content s).errors ↔
      e ∈ lineDiags s (rustLinesL content.data) := by
  unfold validate_diagram
  rw [if_neg hne]
  simp only [List.mem_append]
  constructor
  · intro h
    rcases h with h | h
    · exfalso
      rcases hh : (rustLinesL content.data).head? with _ | fl <;> rw [hh] at h
      · simp at h
      · by_cases hv : is_valid_diagram_declaration (rustTrimL fl) = true <;>
          simp only [hv, if_true, if_false, Bool.false_eq_true,
            List.mem_singleton, List.not_mem_nil] at h
        have hse : e.severity = "error" := by rw [h]
        rw [hsev] at hse
        exact absurd hse (by decide)
    · exact h
  · intro h
    exact Or.inr h

/-- C6. The bracket check runs a single shared stack over parentheses,
square brackets and curly braces, scanning left to right and pushing the
expected closer on each opener (see `bracketScan`); a line of a validated
block gets the "Unmatched brackets detected" warning iff its own scan
fails — the check is local to each line — and in particular `A[foo` is
flagged while `A[foo]` is not. -/
theorem bracket_warning_iff_unmatched :
    (∀ (content : String) (s i : Nat) (l : List Char),
        rustTrimL content.data ≠ [] →
        (rustLinesL content.data)[i]? = some l →
        (((⟨s + i, 1, "Unmatched brackets detected", "warning"⟩ : SyntaxError) ∈
            (validate_diagram content s).errors) ↔
          has_unmatched_brackets l = true)) ∧
    has_unmatched_brackets "A[foo".data = true ∧
    has_unmatched_brackets "A[foo]".data = false := by
  refine ⟨?_, by decide, by decide⟩
  intro content s i l hne hget
  rw [mem_validate_iff_lineDiags content s hne _ rfl]
  exact mem_lineDiags_bracket _ s i l hget

/-- Witness for C6's membership clause at the line `A[foo`. -/
theorem bracket_warning_iff_unmatched_witness :
    (rustTrimL "A[foo".data ≠ [] ∧
      (rustLinesL "A[foo".data)[0]? = some "A[foo".data) ∧
    (((⟨1 + 0, 1, "Unmatched brackets detected", "warning"⟩ : SyntaxError) ∈
        (validate_diagram "A[foo" 1).errors) ↔
      has_unmatched_brackets "A[foo".data = true) :=
  ⟨⟨by decide, by decide⟩,
    bracket_warning_iff_unmatched.1 "A[foo" 1 0 "A[foo".data
      (by decide) (by decide)⟩

/-! ## Ordering of the diagnostics list -/

/-- The within-a-line precedence of the three checks: the declaration (or
empty-content) error first, then the bracket check, then the node-id
check. -/
def diagRank (e : SyntaxError) : Nat :=
  if e.message = "Unmatched brackets detected" then 1
  else if e.message = "Invalid characters in node ID" then 2
  else 0

theorem decl_msg_length (t : String) :
    ("Invalid diagram declaration: '" ++ t ++ "'").length = 31 + t.length := by
  rw [String.length_append, String.length_append]
  have h1 : "Invalid diagram declaration: '".length = 30 := by decide
  have h2 : "'".length = 1 := by decide
  omega

theorem declRank_zero (t : String) (s c : Nat) (sev : String) :
    diagRank ⟨s, c, "Invalid diagram declaration: '" ++ t ++ "'", sev⟩ = 0 := by
  have h1 : ("Invalid diagram declaration: '" ++ t ++ "'" : String) ≠
      "Unmatched brackets detected" := by
    intro h
    have hl := congrArg String.length h
    rw [decl_msg_length] at hl
    have h27 : ("Unmatched brackets detected" : String).length = 27 := by decide
    omega
  have h2 : ("Invalid diagram declaration: '" ++ t ++ "'" : String) ≠
      "Invalid characters in node ID" := by
    intro h
    have hl := congrArg String.length h
    rw [decl_msg_length] at hl
    have h29 : ("Invalid characters in node ID" : String).length = 29 := by decide
    omega
  simp only [diagRank]
  rw [if_neg h1, if_neg h2]

theorem lineDiags_line_ge (ls : List (List Char)) (n : Nat) :
    ∀ e ∈ lineDiags n ls, n ≤ e.line := by
  intro e he
  rcases (mem_lineDiags_iff ls n e).mp he with ⟨i, l, _, ⟨rfl, _⟩ | ⟨rfl, _⟩⟩ <;>
    simp

theorem lineDiags_rank_pos (ls : List (List Char)) (n : Nat) :
    ∀ e ∈ lineDiags n ls, 1 ≤ diagRank e := by
  intro e he
  rcases (mem_lineDiags_iff ls n e).mp he with ⟨i, l, _, ⟨rfl, _⟩ | ⟨rfl, _⟩⟩ <;>
    simp [diagRank]

/-- The line/rank order on diagnostics: strictly increasing line numbers,
and within a line the bracket warning before the node-id warning. -/
def diagLt (a b : SyntaxError) : Prop :=
  a.line < b.line ∨ (a.line = b.line ∧ diagRank a < diagRank b)

theorem lineDiags_pairwise (ls : List (List Char)) :
    ∀ n : Nat, (lineDiags n ls).Pairwise diagLt := by
  induction ls with
  | nil => intro n; simp [lineDiags]
  | cons x rest ih =>
    intro n
    simp only [lineDiags]
    rw [List.pairwise_append, List.pairwise_append]
    refine ⟨⟨?_, ?_, ?_⟩, ih (n + 1), ?_⟩
    · split <;> simp
    · split <;> simp
    · intro a ha b hb
      rw [mem_if_singleton] at ha hb
      rw [ha.2, hb.2]
      right
      refine ⟨rfl, ?_⟩
      simp [diagRank]
    · intro a ha b hb
      have hbl := lineDiags_line_ge rest (n + 1) b hb
      left
      rcases List.mem_append.mp ha with h | h <;> rw [mem_if_singleton] at h <;>
        rw [h.2] <;> dsimp only <;> omega

/-- C9. The diagnostics list of a validated block is ordered: the
empty-content or declaration error (always at `start_line`, rank 0) comes
first, per-line diagnostics follow in increasing line order, and within a
line the bracket warning (rank 1) precedes the node-id warning (rank 2). -/
theorem diagnostics_ordered (content : String) (s : Nat) :
    ((validate_diagram content s).errors).Pairwise
      (fun a b => a.line < b.line ∨ (a.line = b.line ∧ diagRank a < diagRank b)) := by
  unfold validate_diagram
  by_cases h : rustTrimL content.data = []
  · rw [if_pos h]; simp
  · rw [if_neg h]
    dsimp only
    rw [List.pairwise_append]
    refine ⟨?_, lineDiags_pairwise _ s, ?_⟩
    · rcases hh : (rustLinesL content.data).head? with _ | fl <;> simp only [hh]
      · simp
      · split <;> simp
    · intro a ha b hb
      have hbl := lineDiags_line_ge _ s b hb
      have hbr := lineDiags_rank_pos _ s b hb
      rcases hh : (rustLinesL content.data).head? with _ | fl <;>
        rw [hh] at ha
      · simp at ha
      · by_cases hv : is_valid_diagram_declaration (rustTrimL fl) = true <;>
          simp only [hv, if_true, if_false, Bool.false_eq_true,
            List.mem_singleton, List.not_mem_nil] at ha
        have har : diagRank a = 0 := by rw [ha]; exact declRank_zero _ s 1 "error"
        have hal : a.line = s := by rw [ha]
        rcases Nat.lt_or_ge s b.line with hlt | hge
        · left; omega
        · right
          constructor
          · omega
          · omega

/-! ## The node-identifier scan against the specified token predicate -/

theorem getLast?_mem_list {α : Type} {l : List α} {a : α}
    (h : l.getLast? = some a) : a ∈ l := by
  have hm : a ∈ l.getLast? := by rw [Option.mem_def, h]
  rcases List.mem_getLast?_eq_getLast hm with ⟨hne, heq⟩
  rw [heq]
  exact List.getLast_mem hne

theorem getLast?_cons_ne {α : Type} (c : α) {l : List α} (h : l ≠ []) :
    (c :: l).getLast? = l.getLast? := by
  cases l with
  | nil => exact absurd rfl h
  | cons y t => exact List.getLast?_cons_cons

theorem dropWhile_head_not {α : Type} (p : α → Bool) :
    ∀ (l : List α) (a : α), (l.dropWhile p).head? = some a → p a = false := by
  intro l
  induction l with
  | nil => intro a h; simp [List.dropWhile] at h
  | cons x t ih =>
    intro a h
    rw [List.dropWhile_cons] at h
    by_cases hp : p x = true
    · rw [if_pos hp] at h
      exact ih a h
    · rw [if_neg hp] at h
      simp only [List.head?_cons, Option.some.injEq] at h
      subst h
      exact Bool.eq_false_iff.mpr hp

theorem takeWhile_append_all {α : Type} (p : α → Bool) :
    ∀ (xs ys : List α), (∀ a ∈ xs, p a = true) →
      (∀ b, ys.head? = some b → p b = false) →
      (xs ++ ys).takeWhile p = xs ∧ (xs ++ ys).dropWhile p = ys := by
  intro xs
  induction xs with
  | nil =>
    intro ys _ hy
    simp only [List.nil_append]
    cases ys with
    | nil => simp
    | cons b t =>
      have hb := hy b rfl
      rw [List.takeWhile_cons, List.dropWhile_cons, if_neg (by simp [hb]),
        if_neg (by simp [hb])]
      exact ⟨rfl, rfl⟩
  | cons x xs' ih =>
    intro ys hx hy
    have hpx : p x = true := hx x (List.mem_cons_self x xs')
    have hih := ih ys (fun a ha => hx a (List.mem_cons_of_mem _ ha)) hy
    constructor
    · rw [List.cons_append, List.takeWhile_cons, if_pos hpx, hih.1]
    · rw [List.cons_append, List.dropWhile_cons, if_pos hpx, hih.2]

theorem dropWhile_keep_last {α : Type} (p : α → Bool) :
    ∀ (xs : List α) (cp : α), xs.getLast? = some cp → p cp = false →
      (∀ ys, (xs ++ ys).dropWhile p = xs.dropWhile p ++ ys) ∧
      xs.dropWhile p ≠ [] ∧ (xs.dropWhile p).getLast? = some cp := by
  intro xs
  induction xs with
  | nil => intro cp h; simp at h
  | cons x xs' ih =>
    intro cp hlast hcp
    cases xs' with
    | nil =>
      have hx : x = cp := by simpa using hlast
      subst hx
      refine ⟨?_, ?_, ?_⟩
      · intro ys
        rw [List.cons_append, List.nil_append, List.dropWhile_cons,
          if_neg (by simp [hcp]), List.dropWhile_cons, if_neg (by simp [hcp])]
        rfl
      · rw [List.dropWhile_cons, if_neg (by simp [hcp])]
        simp
      · rw [List.dropWhile_cons, if_neg (by simp [hcp])]
        simp
    | cons y t =>
      have hlast' : (y :: t).getLast? = some cp := by
        rw [← List.getLast?_cons_cons (a := x)]
        exact hlast
      have hih := ih cp hlast' hcp
      by_cases hp : p x = true
      · refine ⟨?_, ?_, ?_⟩
        · intro ys
          rw [List.cons_append, List.dropWhile_cons, if_pos hp,
            List.dropWhile_cons, if_pos hp]
          exact hih.1 ys
        · rw [List.dropWhile_cons, if_pos hp]
          exact hih.2.1
        · rw [List.dropWhile_cons, if_pos hp]
          exact hih.2.2
      · refine ⟨?_, ?_, ?_⟩
        · intro ys
          rw [List.cons_append, List.dropWhile_cons, if_neg hp,
            List.dropWhile_cons, if_neg hp]
          simp
        · rw [List.dropWhile_cons, if_neg hp]
          simp
        · rw [List.dropWhile_cons, if_neg hp]
          exact hlast

theorem isWordChar_unicode {c : Char} (h : isWordChar c = true) :
    isUnicodeWordChar c = true := by
  unfold isUnicodeWordChar
  rw [h]
  rfl

/-- The scan of `has_invalid_node_id` reports a match exactly when the line
decomposes around a bad identifier token: a nonempty maximal run of word
characters (`post` starts with a non-word character, `pre` ends with one or
`pre` is empty at a true scan start), whose head is a letter or underscore,
followed by optional whitespace and `'['` or `'('`, and satisfying
`badId`. -/
theorem scanGo_iff_spec :
    ∀ (l : List Char) (inRun : Bool),
      scanGo l inRun = true ↔
        ∃ pre run post, l = pre ++ run ++ post ∧ run ≠ [] ∧
          (∀ c ∈ run, isWordChar c = true) ∧
          (∃ c0, run.head? = some c0 ∧ isIdStart c0 = true) ∧
          ((pre = [] ∧ inRun = false) ∨
            (∃ cp, pre.getLast? = some cp ∧ isUnicodeWordChar cp = false)) ∧
          (∀ c1, post.head? = some c1 → isWordChar c1 = false) ∧
          followedByBracket post = true ∧ badId run = true := by
  intro l
  induction l with
  | nil =>
    intro inRun
    constructor
    · intro h
      simp [scanGo] at h
    · rintro ⟨pre, run, post, heq, hne, -⟩
      rcases List.append_eq_nil.mp (List.append_eq_nil.mp heq.symm).1 with ⟨-, h3⟩
      exact absurd h3 hne
  | cons c cs ih =>
    intro inRun
    by_cases hw : isWordChar c = true
    · cases inRun with
      | true =>
        rw [show scanGo (c :: cs) true = scanGo cs true by simp [scanGo, hw]]
        rw [ih true]
        constructor
        · rintro ⟨pre, run, post, heq, hne, hword, hhead, hbound, hmax, hbr, hbad⟩
          refine ⟨c :: pre, run, post, by rw [heq]; simp, hne, hword, hhead, ?_,
            hmax, hbr, hbad⟩
          right
          rcases hbound with ⟨rfl, hfalse⟩ | ⟨cp, hlast, hcp⟩
          · exact absurd hfalse (by decide)
          · have hpne : pre ≠ [] := by
              intro hh
              rw [hh] at hlast
              simp at hlast
            exact ⟨cp, by rw [getLast?_cons_ne c hpne]; exact hlast, hcp⟩
        · rintro ⟨pre, run, post, heq, hne, hword, hhead, hbound, hmax, hbr, hbad⟩
          rcases hbound with ⟨rfl, hfalse⟩ | ⟨cp, hlast, hcp⟩
          · exact absurd hfalse (by decide)
          · cases pre with
            | nil => simp at hlast
            | cons p0 pre' =>
              have hc : c = p0 ∧ cs = pre' ++ run ++ post := by simpa using heq
              refine ⟨pre', run, post, hc.2, hne, hword, hhead, ?_, hmax, hbr, hbad⟩
              cases pre' with
              | nil =>
                exfalso
                have h1 : p0 = cp := by simpa using hlast
                rw [hc.1, h1] at hw
                rw [isWordChar_unicode hw] at hcp
                exact absurd hcp (by decide)
              | cons q pre'' =>
                right
                refine ⟨cp, ?_, hcp⟩
                rw [← getLast?_cons_ne p0 (l := q :: pre'') (by simp)]
                exact hlast
      | false =>
        rw [show scanGo (c :: cs) false =
            ((isIdStart c && followedByBracket (cs.dropWhile isWordChar) &&
              badId (c :: cs.takeWhile isWordChar)) || scanGo cs true) by
          simp [scanGo, hw]]
        constructor
        · intro h
          simp only [Bool.or_eq_true, Bool.and_eq_true] at h
          rcases h with ⟨⟨hid, hfb⟩, hbad⟩ | hrec
          · refine ⟨[], c :: cs.takeWhile isWordChar, cs.dropWhile isWordChar,
              ?_, by simp, ?_, ⟨c, rfl, hid⟩, Or.inl ⟨rfl, rfl⟩, ?_, hfb, hbad⟩
            · rw [List.nil_append, List.cons_append,
                List.takeWhile_append_dropWhile]
            · intro a ha
              rcases List.mem_cons.mp ha with rfl | ha'
              · exact hw
              · exact List.mem_takeWhile_imp ha'
            · intro c1 hc1
              exact dropWhile_head_not isWordChar cs c1 hc1
          · rcases (ih true).mp hrec with
              ⟨pre, run, post, heq, hne, hword, hhead, hbound, hmax, hbr, hbad⟩
            rcases hbound with ⟨-, hfalse⟩ | ⟨cp, hlast, hcp⟩
            · exact absurd hfalse (by decide)
            · have hpne : pre ≠ [] := by
                intro hh
                rw [hh] at hlast
                simp at hlast
              exact ⟨c :: pre, run, post, by rw [heq]; simp, hne, hword, hhead,
                Or.inr ⟨cp, by rw [getLast?_cons_ne c hpne]; exact hlast, hcp⟩,
                hmax, hbr, hbad⟩
        · rintro ⟨pre, run, post, heq, hne, hword, hhead, hbound, hmax, hbr, hbad⟩
          cases pre with
          | nil =>
            cases run with
            | nil => exact absurd rfl hne
            | cons r0 run' =>
              have hc : c = r0 ∧ cs = run' ++ post := by simpa using heq
              have htd := takeWhile_append_all isWordChar run' post
                (fun a ha => hword a (List.mem_cons_of_mem _ ha))
                (fun b hb => hmax b hb)
              have hid : isIdStart r0 = true := by
                obtain ⟨c0, hc0, hc0id⟩ := hhead
                have : r0 = c0 := by simpa using hc0
                rw [this]
                exact hc0id
              rw [hc.1, hc.2, htd.1, htd.2]
              simp [hid, hbr, hbad]
          | cons p0 pre' =>
            have hc : c = p0 ∧ cs = pre' ++ run ++ post := by simpa using heq
            rcases hbound with ⟨habs, -⟩ | ⟨cp, hlast, hcp⟩
            · exact absurd habs (by simp)
            · cases pre' with
              | nil =>
                exfalso
                have h1 : p0 = cp := by simpa using hlast
                rw [hc.1, h1] at hw
                rw [isWordChar_unicode hw] at hcp
                exact absurd hcp (by decide)
              | cons q pre'' =>
                have hlast' : (q :: pre'').getLast? = some cp := by
                  rw [← getLast?_cons_ne p0 (l := q :: pre'') (by simp)]
                  exact hlast
                have hrec : scanGo cs true = true := by
                  rw [ih true]
                  exact ⟨q :: pre'', run, post, hc.2, hne, hword, hhead,
                    Or.inr ⟨cp, hlast', hcp⟩, hmax, hbr, hbad⟩
                simp [hrec]
    · have hwf : isWordChar c = false := by simpa using hw
      cases hu : isUnicodeWordChar c with
      | false =>
        rw [show scanGo (c :: cs) inRun = scanGo cs false by
          simp [scanGo, hwf, hu]]
        rw [ih false]
        constructor
        · rintro ⟨pre, run, post, heq, hne, hword, hhead, hbound, hmax, hbr, hbad⟩
          refine ⟨c :: pre, run, post, by rw [heq]; simp, hne, hword, hhead, ?_,
            hmax, hbr, hbad⟩
          right
          cases pre with
          | nil => exact ⟨c, by simp, hu⟩
          | cons q pre' =>
            rcases hbound with ⟨habs, -⟩ | ⟨cp, hlast, hcp⟩
            · exact absurd habs (by simp)
            · exact ⟨cp, by rw [getLast?_cons_ne c (by simp)]; exact hlast, hcp⟩
        · rintro ⟨pre, run, post, heq, hne, hword, hhead, hbound, hmax, hbr, hbad⟩
          cases pre with
          | nil =>
            exfalso
            cases run with
            | nil => exact hne rfl
            | cons r0 run' =>
              have hc : c = r0 ∧ cs = run' ++ post := by simpa using heq
              have hr0 : isWordChar r0 = true := hword r0 (by simp)
              rw [← hc.1] at hr0
              rw [hr0] at hwf
              exact absurd hwf (by decide)
          | cons p0 pre' =>
            have hc : c = p0 ∧ cs = pre' ++ run ++ post := by simpa using heq
            refine ⟨pre', run, post, hc.2, hne, hword, hhead, ?_, hmax, hbr, hbad⟩
            cases pre' with
            | nil => exact Or.inl ⟨rfl, rfl⟩
            | cons q pre'' =>
              rcases hbound with ⟨habs, -⟩ | ⟨cp, hlast, hcp⟩
              · exact absurd habs (by simp)
              · right
                refine ⟨cp, ?_, hcp⟩
                rw [← getLast?_cons_ne p0 (l := q :: pre'') (by simp)]
                exact hlast
      | true =>
        rw [show scanGo (c :: cs) inRun = scanGo cs true by
          simp [scanGo, hwf, hu]]
        rw [ih true]
        constructor
        · rintro ⟨pre, run, post, heq, hne, hword, hhead, hbound, hmax, hbr, hbad⟩
          refine ⟨c :: pre, run, post, by rw [heq]; simp, hne, hword, hhead, ?_,
            hmax, hbr, hbad⟩
          right
          rcases hbound with ⟨rfl, hfalse⟩ | ⟨cp, hlast, hcp⟩
          · exact absurd hfalse (by decide)
          · have hpne : pre ≠ [] := by
              intro hh
              rw [hh] at hlast
              simp at hlast
            exact ⟨cp, by rw [getLast?_cons_ne c hpne]; exact hlast, hcp⟩
        · rintro ⟨pre, run, post, heq, hne, hword, hhead, hbound, hmax, hbr, hbad⟩
          cases pre with
          | nil =>
            exfalso
            cases run with
            | nil => exact hne rfl
            | cons r0 run' =>
              have hc : c = r0 ∧ cs = run' ++ post := by simpa using heq
              have hr0 : isWordChar r0 = true := hword r0 (by simp)
              rw [← hc.1] at hr0
              rw [hr0] at hwf
              exact absurd hwf (by decide)
          | cons p0 pre' =>
            have hc : c = p0 ∧ cs = pre' ++ run ++ post := by simpa using heq
            rcases hbound with ⟨habs, -⟩ | ⟨cp, hlast, hcp⟩
            · exact absurd habs (by simp)
            · cases pre' with
              | nil =>
                exfalso
                have h1 : p0 = cp := by simpa using hlast
                rw [hc.1, h1] at hu
                rw [hu] at hcp
                exact absurd hcp (by decide)
              | cons q pre'' =>
                refine ⟨q :: pre'', run, post, hc.2, hne, hword, hhead, ?_,
                  hmax, hbr, hbad⟩
                right
                refine ⟨cp, ?_, hcp⟩
                rw [← getLast?_cons_ne p0 (l := q :: pre'') (by simp)]
                exact hlast

/-- The specified node-identifier predicate: the line contains an
identifier token (a maximal run of `[A-Za-z0-9_]` characters not preceded
by a character of `\b`'s Unicode word set, starting with a letter or
underscore) followed — immediately
when `immediate`, otherwise after optional whitespace — by `'['` or `'('`,
where the token is longer than 50 characters, contains the substring
`--`, or starts with `__`. With `immediate := true` this is claim C3 as
stated; with `immediate := false` it is the amended claim matching the
source regex's `\s*`. -/
def SpecBadNodeId (immediate : Bool) (l : List Char) : Prop :=
  ∃ pre run post, l = pre ++ run ++ post ∧ run ≠ [] ∧
    (∀ c ∈ run, isWordChar c = true) ∧
    (∃ c0, run.head? = some c0 ∧ isIdStart c0 = true) ∧
    (pre = [] ∨ ∃ cp, pre.getLast? = some cp ∧ isUnicodeWordChar cp = false) ∧
    (∀ c1, post.head? = some c1 → isWordChar c1 = false) ∧
    (∃ cb, (if immediate then post.head? else (post.dropWhile rustWS).head?) =
        some cb ∧ (cb = '[' ∨ cb = '(')) ∧
    (run.length > 50 ∨ hasDashDash run = true ∨
      "__".data.isPrefixOf run = true)

theorem followedByBracket_iff (rest : List Char) :
    followedByBracket rest = true ↔
      ∃ cb, (rest.dropWhile rustWS).head? = some cb ∧ (cb = '[' ∨ cb = '(') := by
  unfold followedByBracket
  cases h : (rest.dropWhile rustWS).head? with
  | none => simp
  | some c => simp [h]

theorem badId_iff (run : List Char) :
    badId run = true ↔
      (run.length > 50 ∨ hasDashDash run = true ∨
        "__".data.isPrefixOf run = true) := by
  simp only [badId, Bool.or_eq_true, decide_eq_true_eq]
  tauto

/-- The scan of the source regex agrees with the amended (whitespace
allowed) token predicate on every line. -/
theorem has_invalid_node_id_iff_spec (l : List Char) :
    has_invalid_node_id l = true ↔ SpecBadNodeId false l := by
  unfold has_invalid_node_id SpecBadNodeId
  rw [scanGo_iff_spec l false]
  constructor
  · rintro ⟨pre, run, post, heq, hne, hword, hhead, hbound, hmax, hbr, hbad⟩
    refine ⟨pre, run, post, heq, hne, hword, hhead, ?_, hmax, ?_, ?_⟩
    · rcases hbound with ⟨h1, -⟩ | h2
      · exact Or.inl h1
      · exact Or.inr h2
    · have hb := (followedByBracket_iff post).mp hbr
      simpa using hb
    · exact (badId_iff run).mp hbad
  · rintro ⟨pre, run, post, heq, hne, hword, hhead, hbound, hmax, hbr, hbad⟩
    refine ⟨pre, run, post, heq, hne, hword, hhead, ?_, hmax, ?_, ?_⟩
    · rcases hbound with h1 | h2
      · exact Or.inl ⟨h1, rfl⟩
      · exact Or.inr h2
    · rw [followedByBracket_iff]
      simpa using hbr
    · rw [badId_iff]
      exact hbad

/-- Under the claim's immediate reading, some word character is directly
followed by the bracket (the token's last character). -/
theorem specImmediate_bracket_after_word {l : List Char}
    (h : SpecBadNodeId true l) :
    ∃ j w cb, l[j]? = some w ∧ isWordChar w = true ∧
      l[j + 1]? = some cb ∧ (cb = '[' ∨ cb = '(') := by
  obtain ⟨pre, run, post, heq, hne, hword, -, -, -, hbr, -⟩ := h
  obtain ⟨cb, hcb, hbrk⟩ := hbr
  rw [if_pos rfl] at hcb
  obtain ⟨w, hw⟩ : ∃ w, run.getLast? = some w := by
    cases hr : run.getLast? with
    | none =>
      exfalso
      cases run with
      | nil => exact hne rfl
      | cons a t => rw [List.getLast?_eq_getElem?] at hr; simp at hr
    | some w => exact ⟨w, rfl⟩
  have hwword : isWordChar w = true := hword w (getLast?_mem_list hw)
  have hrlen : 1 ≤ run.length := by
    cases run with
    | nil => exact absurd rfl hne
    | cons _ _ => simp
  refine ⟨pre.length + (run.length - 1), w, cb, ?_, hwword, ?_, hbrk⟩
  · rw [heq]
    rw [List.getElem?_append_left (by simp; omega)]
    rw [List.getElem?_append_right (by omega)]
    have harith : pre.length + (run.length - 1) - pre.length = run.length - 1 := by
      omega
    rw [harith, ← List.getLast?_eq_getElem? run]
    exact hw
  · rw [heq]
    rw [List.getElem?_append_right (by simp; omega)]
    have harith : pre.length + (run.length - 1) + 1 - (pre ++ run).length = 0 := by
      simp; omega
    rw [harith, ← List.head?_eq_getElem? post]
    exact hcb

/-- C3 (counterexample). On the line `__x [` (whitespace between the
identifier and the bracket) the source emits the node-id warning, but no
identifier token of the line is immediately followed by `'['` or `'('`:
the claim's "immediately followed" does not hold of the code, whose regex
allows `\s*` before the bracket. -/
theorem node_id_warning_not_immediate_token :
    ((⟨1, 1, "Invalid characters in node ID", "warning"⟩ : SyntaxError) ∈
      (validate_diagram "__x [" 1).errors) ∧
    ¬ SpecBadNodeId true "__x [".data := by
  refine ⟨by decide, ?_⟩
  intro h
  rw [show "__x [".data = ['_', '_', 'x', ' ', '['] from rfl] at h
  obtain ⟨j, w, cb, hw, hword, hcb, hbrk⟩ := specImmediate_bracket_after_word h
  rcases j with _ | _ | _ | _ | j
  · simp only [List.getElem?_cons_succ, List.getElem?_cons_zero,
      Option.some.injEq] at hcb
    subst hcb
    rcases hbrk with hx | hx <;> exact absurd hx (by decide)
  · simp only [List.getElem?_cons_succ, List.getElem?_cons_zero,
      Option.some.injEq] at hcb
    subst hcb
    rcases hbrk with hx | hx <;> exact absurd hx (by decide)
  · simp only [List.getElem?_cons_succ, List.getElem?_cons_zero,
      Option.some.injEq] at hcb
    subst hcb
    rcases hbrk with hx | hx <;> exact absurd hx (by decide)
  · simp only [List.getElem?_cons_succ, List.getElem?_cons_zero,
      Option.some.injEq] at hw
    subst hw
    exact absurd hword (by decide)
  · simp only [List.getElem?_cons_succ, List.getElem?_nil] at hcb
    exact Option.noConfusion hcb

/-- C3 (amended). A line of a validated block gets the "Invalid characters
in node ID" warning iff it contains an identifier token (a maximal word
run at a word boundary starting with a letter or underscore) followed by
optional whitespace and then `'['` or `'('`, whose text is longer than 50
characters, contains `--`, or starts with `__`; at most one such warning
is emitted per line, and at least one per offending line. -/
theorem node_id_warning_iff_spaced_token :
    ∀ (content : String) (s i : Nat) (l : List Char),
      rustTrimL content.data ≠ [] →
      (rustLinesL content.data)[i]? = some l →
      (((⟨s + i, 1, "Invalid characters in node ID", "warning"⟩ : SyntaxError) ∈
          (validate_diagram content s).errors) ↔ SpecBadNodeId false l) := by
  intro content s i l hne hget
  rw [mem_validate_iff_lineDiags content s hne _ rfl]
  rw [mem_lineDiags_node _ s i l hget]
  exact has_invalid_node_id_iff_spec l

/-- Witness for C3's amended claim at the line `__a [x]`. -/
theorem node_id_warning_iff_spaced_token_witness :
    (rustTrimL "__a [x]".data ≠ [] ∧
      (rustLinesL "__a [x]".data)[0]? = some "__a [x]".data) ∧
    (((⟨1 + 0, 1, "Invalid characters in node ID", "warning"⟩ : SyntaxError) ∈
        (validate_diagram "__a [x]" 1).errors) ↔
      SpecBadNodeId false "__a [x]".data) :=
  ⟨⟨by decide, by decide⟩,
    node_id_warning_iff_spaced_token "__a [x]" 1 0 "__a [x]".data
      (by decide) (by decide)⟩

/-! ## Shaped inputs: where a fenced block's record comes from -/

theorem pushBlock_diagrams (st : PState) (e : Nat) :
    ∃ tail, (pushBlock st e).diagrams = st.diagrams ++ tail := by
  unfold pushBlock
  by_cases hc : st.cur = []
  · exact ⟨[], by rw [if_pos hc]; simp⟩
  · exact ⟨[(mkDiagram st.cur st.start e).1], by rw [if_neg hc]⟩

theorem processLines_diagrams_mono :
    ∀ (ls : List (List Char)) (idx : Nat) (st : PState),
      ∃ suffix, (processLines ls idx st).diagrams = st.diagrams ++ suffix := by
  intro ls
  induction ls with
  | nil => intro idx st; exact ⟨[], by simp [processLines]⟩
  | cons l rest ih =>
    intro idx st
    cases ho : openerLine l with
    | true =>
      obtain ⟨suf, hsuf⟩ := ih (idx + 1)
        { st with inBlock := true, start := idx + 2, cur := [] }
      exact ⟨suf, by simp only [processLines, ho, if_true]; exact hsuf⟩
    | false =>
      cases hb : st.inBlock with
      | false =>
        obtain ⟨suf, hsuf⟩ := ih (idx + 1) st
        exact ⟨suf, by simp [processLines, ho, hb]; exact hsuf⟩
      | true =>
        cases hc : closerLine l with
        | true =>
          obtain ⟨tail, htail⟩ := pushBlock_diagrams st idx
          obtain ⟨suf, hsuf⟩ := ih (idx + 1) (pushBlock st idx)
          refine ⟨tail ++ suf, ?_⟩
          simp only [processLines, ho, hb, hc, Bool.and_self, if_true,
            Bool.false_eq_true, if_false]
          rw [hsuf, htail, List.append_assoc]
        | false =>
          obtain ⟨suf, hsuf⟩ := ih (idx + 1)
            ⟨st.diagrams, st.total, true, st.cur ++ [l], st.start⟩
          refine ⟨suf, ?_⟩
          simp only [processLines, ho, hb, hc, Bool.true_and,
            Bool.false_eq_true, if_false, if_true]
          exact hsuf

/-- Lines before any opener are skipped without touching the state. -/
theorem processLines_skip :
    ∀ (pre others : List (List Char)) (idx : Nat) (st : PState),
      st.inBlock = false → (∀ l ∈ pre, openerLine l = false) →
      processLines (pre ++ others) idx st =
        processLines others (idx + pre.length) st := by
  intro pre
  induction pre with
  | nil => intro others idx st _ _; simp
  | cons x pre' ih =>
    intro others idx st hb hop
    have hx : openerLine x = false := hop x (by simp)
    simp only [List.cons_append, processLines, hx, Bool.false_eq_true,
      if_false, hb, Bool.false_and]
    show processLines (pre' ++ others) (idx + 1) st = _
    rw [ih others (idx + 1) st hb (fun l hl => hop l (by simp [hl]))]
    have harith : idx + 1 + pre'.length = idx + (x :: pre').length := by
      simp; omega
    rw [harith]

/-- Non-fence lines inside a block are collected verbatim. -/
theorem processLines_collect :
    ∀ (body others : List (List Char)) (idx : Nat) (st : PState),
      st.inBlock = true →
      (∀ l ∈ body, openerLine l = false ∧ closerLine l = false) →
      processLines (body ++ others) idx st =
        processLines others (idx + body.length)
          { st with cur := st.cur ++ body } := by
  intro body
  induction body with
  | nil => intro others idx st _ _; simp
  | cons x body' ih =>
    intro others idx st hb hlines
    have hx := hlines x (by simp)
    simp only [List.cons_append, processLines, hx.1, hx.2, Bool.false_eq_true,
      if_false, hb, Bool.true_and]
    show processLines (body' ++ others) (idx + 1)
        ⟨st.diagrams, st.total, true, st.cur ++ [x], st.start⟩ = _
    rw [ih others (idx + 1) ⟨st.diagrams, st.total, true, st.cur ++ [x], st.start⟩
      rfl (fun l hl => hlines l (by simp [hl]))]
    have harith : idx + 1 + body'.length = idx + (x :: body').length := by
      simp; omega
    rw [harith]
    simp [List.append_assoc]

/-- Collecting to the end of input: every remaining line joins the current
block. -/
theorem processLines_collect_all (body : List (List Char)) (idx : Nat)
    (st : PState) (hb : st.inBlock = true)
    (hl : ∀ l ∈ body, openerLine l = false ∧ closerLine l = false) :
    processLines body idx st = { st with cur := st.cur ++ body } := by
  have hstep := processLines_collect body [] idx st hb hl
  rw [List.append_nil] at hstep
  rw [hstep]
  simp [processLines]

/-- The shared shape fact behind C4 and C10: a fenced block, whether closed
by a fence or by the end of input, produces the record built by
`mkDiagram` from its collected lines, with `start_line` just after the
opener and `end_line` the last content line (equal to the input's total
line count in the unclosed case). -/
theorem parse_lines_block_shape
    (pre body post : List (List Char)) (openL : List Char)
    (hopen : openerLine openL = true)
    (hpre : ∀ l ∈ pre, openerLine l = false)
    (hbody_ne : body ≠ [])
    (hbody : ∀ l ∈ body, openerLine l = false ∧ closerLine l = false) :
    (parse_lines (pre ++ [openL] ++ body ++ ["```".data] ++ post)).diagrams.head? =
      some (mkDiagram body (pre.length + 2) (pre.length + 1 + body.length)).1 ∧
    (parse_lines (pre ++ [openL] ++ body)).diagrams =
      [(mkDiagram body (pre.length + 2) (pre.length + 1 + body.length)).1] := by
  have hcl_open : openerLine "```".data = false := by decide
  have hcl_close : closerLine "```".data = true := by decide
  constructor
  · unfold parse_lines
    dsimp only
    have hassoc : pre ++ [openL] ++ body ++ ["```".data] ++ post =
        pre ++ (openL :: (body ++ ("```".data :: post))) := by
      simp
    rw [hassoc]
    rw [processLines_skip pre _ 0 _ rfl hpre]
    rw [show processLines
        (openL :: (body ++ ("```".data :: post))) (0 + pre.length)
        ⟨[], 0, false, [], 0⟩ =
      processLines (body ++ ("```".data :: post)) (0 + pre.length + 1)
        ⟨[], 0, true, [], 0 + pre.length + 2⟩ by
      simp only [processLines, hopen, if_true]]
    rw [processLines_collect body ("```".data :: post) _ _ rfl hbody]
    rw [show processLines ("```".data :: post)
        (0 + pre.length + 1 + body.length)
        { diagrams := ([] : List ParsedDiagram), total := 0, inBlock := true,
          cur := [] ++ body, start := 0 + pre.length + 2 } =
      processLines post (0 + pre.length + 1 + body.length + 1)
        (pushBlock
          { diagrams := ([] : List ParsedDiagram), total := 0, inBlock := true,
            cur := [] ++ body, start := 0 + pre.length + 2 }
          (0 + pre.length + 1 + body.length)) by
      simp only [processLines, hcl_open, hcl_close, Bool.false_eq_true,
        if_false, Bool.and_self, if_true]]
    rw [show pushBlock
        { diagrams := ([] : List ParsedDiagram), total := 0, inBlock := true,
          cur := [] ++ body, start := 0 + pre.length + 2 }
        (0 + pre.length + 1 + body.length) =
      { diagrams := [(mkDiagram body (pre.length + 2)
          (pre.length + 1 + body.length)).1],
        total := 0 + (mkDiagram body (pre.length + 2)
          (pre.length + 1 + body.length)).2,
        inBlock := false, cur := [], start := 0 + pre.length + 2 } by
      unfold pushBlock
      rw [if_neg (by simpa using hbody_ne)]
      simp]
    obtain ⟨suf, hsuf⟩ := processLines_diagrams_mono post
      (0 + pre.length + 1 + body.length + 1)
      { diagrams := [(mkDiagram body (pre.length + 2)
          (pre.length + 1 + body.length)).1],
        total := 0 + (mkDiagram body (pre.length + 2)
          (pre.length + 1 + body.length)).2,
        inBlock := false, cur := [], start := 0 + pre.length + 2 }
    by_cases hfb : (processLines post (0 + pre.length + 1 + body.length + 1)
        { diagrams := [(mkDiagram body (pre.length + 2)
            (pre.length + 1 + body.length)).1],
          total := 0 + (mkDiagram body (pre.length + 2)
            (pre.length + 1 + body.length)).2,
          inBlock := false, cur := [], start := 0 + pre.length + 2 }).inBlock = true
    · rw [if_pos hfb]
      obtain ⟨tail, htail⟩ := pushBlock_diagrams _ (pre ++
        (openL :: (body ++ ("```".data :: post)))).length
      rw [htail, hsuf]
      simp
    · rw [if_neg hfb]
      rw [hsuf]
      simp
  · unfold parse_lines
    dsimp only
    have hassoc : pre ++ [openL] ++ body = pre ++ (openL :: body) := by
      simp
    rw [hassoc]
    rw [processLines_skip pre _ 0 _ rfl hpre]
    rw [show processLines (openL :: body) (0 + pre.length)
        ⟨[], 0, false, [], 0⟩ =
      processLines body (0 + pre.length + 1)
        ⟨[], 0, true, [], 0 + pre.length + 2⟩ by
      simp only [processLines, hopen, if_true]]
    rw [processLines_collect_all body _ _ rfl hbody]
    rw [if_pos (by trivial)]
    unfold pushBlock
    rw [if_neg (by simpa using hbody_ne)]
    have hlen : (pre ++ (openL :: body)).length = pre.length + 1 + body.length := by
      simp
      omega
    simp only [hlen]
    simp

/-- C4. In a fenced block (prefix lines without an opener, the opening
fence, non-fence content lines, then a closing fence or the end of the
input): `start_line` is the 1-indexed line just after the opening fence,
`end_line` the closing-fence line minus one (the last content line); when
the input ends while still inside the block the identical record is
produced — classified and validated exactly as for a closed block — with
`end_line` equal to the total line count, and no diagnostic added merely
for being unclosed. -/
theorem fenced_block_line_numbers_and_unclosed
    (pre body post : List (List Char)) (openL : List Char)
    (hopen : openerLine openL = true)
    (hpre : ∀ l ∈ pre, openerLine l = false)
    (hbody_ne : body ≠ [])
    (hbody : ∀ l ∈ body, openerLine l = false ∧ closerLine l = false) :
    (parse_lines (pre ++ [openL] ++ body ++ ["```".data] ++ post)).diagrams.head? =
      some ⟨detect_diagram_type ⟨joinLines body⟩, ⟨joinLines body⟩,
        pre.length + 2, pre.length + 1 + body.length,
        !(validate_diagram ⟨joinLines body⟩ (pre.length + 2)).is_valid,
        ((validate_diagram ⟨joinLines body⟩ (pre.length + 2)).errors.head?.map
          (fun e => e.message))⟩ ∧
    (parse_lines (pre ++ [openL] ++ body)).diagrams =
      [⟨detect_diagram_type ⟨joinLines body⟩, ⟨joinLines body⟩,
        pre.length + 2, pre.length + 1 + body.length,
        !(validate_diagram ⟨joinLines body⟩ (pre.length + 2)).is_valid,
        ((validate_diagram ⟨joinLines body⟩ (pre.length + 2)).errors.head?.map
          (fun e => e.message))⟩] ∧
    (pre ++ [openL] ++ body).length = pre.length + 1 + body.length := by
  have h := parse_lines_block_shape pre body post openL hopen hpre hbody_ne hbody
  exact ⟨h.1, h.2, by simp; omega⟩

/-- Witness for C4 at a one-line flowchart block with no closing fence and
with one. -/
theorem fenced_block_line_numbers_and_unclosed_witness :
    (openerLine "```mermaid".data = true ∧
      (["graph TD".data] : List (List Char)) ≠ []) ∧
    (parse_lines (([] : List (List Char)) ++ ["```mermaid".data] ++
        ["graph TD".data])).diagrams =
      [⟨detect_diagram_type ⟨joinLines ["graph TD".data]⟩,
        ⟨joinLines ["graph TD".data]⟩,
        ([] : List (List Char)).length + 2,
        ([] : List (List Char)).length + 1 + ["graph TD".data].length,
        !(validate_diagram ⟨joinLines ["graph TD".data]⟩
          (([] : List (List Char)).length + 2)).is_valid,
        ((validate_diagram ⟨joinLines ["graph TD".data]⟩
          (([] : List (List Char)).length + 2)).errors.head?.map
          (fun e => e.message))⟩] :=
  ⟨⟨by decide, by decide⟩,
    (fenced_block_line_numbers_and_unclosed [] ["graph TD".data] []
      "```mermaid".data (by decide) (by simp) (by decide) (by decide)).2.1⟩

/-! ## Whitespace-only blocks -/

theorem head?_mem_list {α : Type} {l : List α} {a : α}
    (h : l.head? = some a) : a ∈ l := by
  cases l with
  | nil => simp at h
  | cons x t =>
    simp only [List.head?_cons, Option.some.injEq] at h
    rw [← h]
    exact List.mem_cons_self x t

theorem all_ws_trim_nil {l : List Char} (h : ∀ c ∈ l, rustWS c = true) :
    rustTrimL l = [] := by
  unfold rustTrimL
  have h1 : l.dropWhile rustWS = [] := by
    rw [List.dropWhile_eq_nil_iff]
    intro x hx
    exact h x hx
  rw [h1]
  simp

theorem ws_line_not_fence {l : List Char} (h : ∀ c ∈ l, rustWS c = true) :
    openerLine l = false ∧ closerLine l = false := by
  have ht := all_ws_trim_nil h
  unfold openerLine closerLine
  rw [ht]
  exact ⟨by decide, by decide⟩

theorem joinLines_all_ws {ls : List (List Char)}
    (h : ∀ l ∈ ls, ∀ c ∈ l, rustWS c = true) :
    ∀ c ∈ joinLines ls, rustWS c = true := by
  induction ls with
  | nil => simp [joinLines]
  | cons l rest ih =>
    cases rest with
    | nil =>
      intro c hc
      simp only [joinLines] at hc
      exact h l (by simp) c hc
    | cons l2 rest2 =>
      intro c hc
      simp only [joinLines] at hc
      rcases List.mem_append.mp hc with h1 | h2
      · exact h l (by simp) c h1
      · rcases List.mem_cons.mp h2 with rfl | h3
        · decide
        · exact ih (fun l' hl' => h l' (by simp [hl'])) c h3

theorem splitNl_part_chars :
    ∀ (cs part : List Char), part ∈ splitNl cs → ∀ x ∈ part, x ∈ cs := by
  intro cs
  induction cs with
  | nil =>
    intro part hp x hx
    simp only [splitNl, List.mem_singleton] at hp
    rw [hp] at hx
    simp at hx
  | cons c rest ih =>
    intro part hp x hx
    by_cases hc : c = '\n'
    · rw [show splitNl (c :: rest) = [] :: splitNl rest by
        simp [splitNl, hc]] at hp
      rcases List.mem_cons.mp hp with rfl | h2
      · simp at hx
      · exact List.mem_cons_of_mem c (ih part h2 x hx)
    · rcases hsp : splitNl rest with _ | ⟨h0, t⟩
      · rw [show splitNl (c :: rest) = [[c]] by
          simp [splitNl, hc, hsp]] at hp
        simp only [List.mem_singleton] at hp
        rw [hp] at hx
        simp only [List.mem_singleton] at hx
        rw [hx]
        exact List.mem_cons_self c rest
      · rw [show splitNl (c :: rest) = (c :: h0) :: t by
          simp [splitNl, hc, hsp]] at hp
        rcases List.mem_cons.mp hp with rfl | h2
        · rcases List.mem_cons.mp hx with rfl | h3
          · exact List.mem_cons_self x rest
          · have hh : h0 ∈ splitNl rest := by rw [hsp]; simp
            exact List.mem_cons_of_mem c (ih h0 hh x h3)
        · have hh : part ∈ splitNl rest := by rw [hsp]; simp [h2]
          exact List.mem_cons_of_mem c (ih part hh x hx)

theorem rustLinesGo_chars :
    ∀ (ps : List (List Char)) (q : List Char), q ∈ rustLinesGo ps →
      ∃ p ∈ ps, ∀ x ∈ q, x ∈ p := by
  intro ps
  induction ps with
  | nil => intro q hq; simp [rustLinesGo] at hq
  | cons p rest ih =>
    cases rest with
    | nil =>
      intro q hq
      simp only [rustLinesGo] at hq
      by_cases hp : p = []
      · rw [if_pos hp] at hq
        simp at hq
      · rw [if_neg hp] at hq
        simp only [List.mem_singleton] at hq
        exact ⟨p, by simp, fun x hx => hq ▸ hx⟩
    | cons p2 rest2 =>
      intro q hq
      simp only [rustLinesGo] at hq
      rcases List.mem_cons.mp hq with rfl | h2
      · refine ⟨p, by simp, ?_⟩
        intro x hx
        unfold stripCRL at hx
        by_cases hcr : p.getLast? = some '\r'
        · rw [if_pos hcr] at hx
          exact List.dropLast_subset p hx
        · rw [if_neg hcr] at hx
          exact hx
      · obtain ⟨p', hp', hsub⟩ := ih q h2
        exact ⟨p', by simp [hp'], hsub⟩

/-- C10. A fenced block whose collected lines are all empty or
whitespace-only still yields a record (the guard is on the collected line
list, not the trimmed content), classified "unknown", with `has_error` set
and first error message "Empty diagram content" — whether the fence is
closed or the input ends first. -/
theorem whitespace_block_still_reported
    (pre post ws : List (List Char)) (openL : List Char)
    (hopen : openerLine openL = true)
    (hpre : ∀ l ∈ pre, openerLine l = false)
    (hws_ne : ws ≠ [])
    (hws : ∀ l ∈ ws, ∀ c ∈ l, rustWS c = true) :
    (parse_lines (pre ++ [openL] ++ ws ++ ["```".data] ++ post)).diagrams.head? =
      some ⟨"unknown", ⟨joinLines ws⟩, pre.length + 2,
        pre.length + 1 + ws.length, true, some "Empty diagram content"⟩ ∧
    (parse_lines (pre ++ [openL] ++ ws)).diagrams =
      [⟨"unknown", ⟨joinLines ws⟩, pre.length + 2,
        pre.length + 1 + ws.length, true, some "Empty diagram content"⟩] := by
  have hbody : ∀ l ∈ ws, openerLine l = false ∧ closerLine l = false :=
    fun l hl => ws_line_not_fence (hws l hl)
  have h := parse_lines_block_shape pre ws post openL hopen hpre hws_ne hbody
  have hjoin : ∀ c ∈ joinLines ws, rustWS c = true := joinLines_all_ws hws
  have htrim : rustTrimL ((⟨joinLines ws⟩ : String)).data = [] :=
    all_ws_trim_nil hjoin
  have hval : validate_diagram ⟨joinLines ws⟩ (pre.length + 2) =
      ⟨false, [⟨pre.length + 2, 1, "Empty diagram content", "error"⟩]⟩ := by
    unfold validate_diagram
    rw [if_pos htrim]
  have hfl : rustTrimL (firstLineChars ⟨joinLines ws⟩) = [] := by
    apply all_ws_trim_nil
    intro c hc
    unfold firstLineChars at hc
    rcases hh : (rustLinesL ((⟨joinLines ws⟩ : String)).data).head? with _ | fl
    · rw [hh] at hc
      simp at hc
    · rw [hh] at hc
      simp only [Option.getD_some] at hc
      have hfl_mem : fl ∈ rustLinesL (joinLines ws) := head?_mem_list hh
      obtain ⟨p, hp, hsub⟩ :=
        rustLinesGo_chars (splitNl (joinLines ws)) fl hfl_mem
      exact hjoin c (splitNl_part_chars (joinLines ws) p hp c (hsub c hc))
  have hdet : detect_diagram_type ⟨joinLines ws⟩ = "unknown" := by
    unfold detect_diagram_type detectWithOrder
    rw [hfl]
    decide
  have hmk : (mkDiagram ws (pre.length + 2) (pre.length + 1 + ws.length)).1 =
      ⟨"unknown", ⟨joinLines ws⟩, pre.length + 2, pre.length + 1 + ws.length,
        true, some "Empty diagram content"⟩ := by
    unfold mkDiagram
    dsimp only
    rw [hval, hdet]
    simp
  rw [hmk] at h
  exact h

/-- Witness for C10 at a block holding one blank and one spaces-only
line. -/
theorem whitespace_block_still_reported_witness :
    (openerLine "```mermaid".data = true ∧
      ([[], "  ".data] : List (List Char)) ≠ [] ∧
      (∀ l ∈ ([[], "  ".data] : List (List Char)), ∀ c ∈ l, rustWS c = true)) ∧
    (parse_lines (([] : List (List Char)) ++ ["```mermaid".data] ++
        [[], "  ".data])).diagrams =
      [⟨"unknown", ⟨joinLines [[], "  ".data]⟩,
        ([] : List (List Char)).length + 2,
        ([] : List (List Char)).length + 1 + [[], "  ".data].length,
        true, some "Empty diagram content"⟩] :=
  ⟨⟨by decide, by decide, by decide⟩,
    (whitespace_block_still_reported [] [] [[], "  ".data]
      "```mermaid".data (by decide) (by simp) (by decide) (by decide)).2⟩
